import Mathlib

/-!
# Resource rule acquisition and registry (rgmanager/src/daemons/resrules.c)

A shallow embedding of the rule registry, the duration parser, the schema
extraction routines, the pipe reader and the rule builder of `resrules.c`,
followed by the theorems that settle the claims of the specification.

Conventions of the embedding:

* a C string (`char *`, non-NULL) is the list of its bytes before the
  terminating NUL, each byte read as `unsigned char`; a possibly-NULL
  `char *` is an `Option`;
* a C `int` is an `Int`; where the source multiplies, the product is
  reduced to 32 bits two's complement (`wrap32`);
* a NULL-terminated array (`resource_attr_t *`, `resource_act_t *`,
  `resource_child_t *`) is the list of its entries before the terminator,
  the NULL array being the empty list; allocation is taken to succeed;
* the circular rule list is the list of its nodes enumerated from the head.
-/

namespace ResRules

/-- A C string: its bytes up to, not including, the terminating NUL. -/
abbrev CStr := List Nat

/-- Well-formed C string: no byte is NUL (a NUL would end the string) and every
byte fits an `unsigned char`. -/
def isCStr (s : CStr) : Prop := ∀ c ∈ s, 0 < c ∧ c < 256

instance (s : CStr) : Decidable (isCStr s) := by
  unfold isCStr; infer_instance

/-- Bytes of a Lean string literal, for writing concrete inputs. -/
def cstr (s : String) : CStr := s.toList.map Char.toNat

/-! ## libc string functions used by the source -/

/-- C-locale `tolower` on a byte: only `A`..`Z` change. -/
def tolower (c : Nat) : Nat := if 65 ≤ c ∧ c ≤ 90 then c + 32 else c

/-- The libc `strcasecmp(a, b)`: difference of the first pair of bytes that differ after
lower-casing, the end of a string reading as NUL; 0 when none differs. -/
def strcasecmp : CStr → CStr → Int
  | [], [] => 0
  | [], b :: _ => - (tolower b : Int)
  | a :: _, [] => (tolower a : Int)
  | a :: as, b :: bs =>
    if tolower a = tolower b then strcasecmp as bs
    else (tolower a : Int) - (tolower b : Int)

/-- The libc `strcmp(a, b)`: difference of the first pair of bytes that differ, the end
of a string reading as NUL; 0 when none differs. -/
def strcmp : CStr → CStr → Int
  | [], [] => 0
  | [], b :: _ => - (b : Int)
  | a :: _, [] => (a : Int)
  | a :: as, b :: bs =>
    if a = b then strcmp as bs else (a : Int) - (b : Int)

/-- C `isspace` in the C locale: space, and `\t`, `\n`, `\v`, `\f`, `\r`. -/
def isspace (c : Nat) : Bool := c = 32 || (9 ≤ c && c ≤ 13)

/-- C `isdigit`: the bytes `0`..`9`. -/
def isdigit (c : Nat) : Bool := 48 ≤ c && c ≤ 57

/-- Value of the leading run of decimal digits, continuing from `acc`. -/
def atoi_digits : CStr → Nat → Nat
  | [], acc => acc
  | c :: cs, acc => if isdigit c then atoi_digits cs (acc * 10 + (c - 48)) else acc

/-- Reduction of an integer to a 32-bit two's complement `int`. -/
def wrap32 (v : Int) : Int := (v + 2147483648) % 4294967296 - 2147483648

/-- Largest `int`. -/
def INT_MAX : Int := 2147483647

/-- Largest `long` (LP64). -/
def LONG_MAX : Int := 9223372036854775807

/-- libc `atoi(s)`, that is `(int) strtol(s, NULL, 10)`: leading white space is
skipped, one optional sign is read, then the leading run of digits; with no
digit the result is 0.  A value outside `long` saturates in `strtol` and the
conversion to `int` keeps the low 32 bits; for values that fit an `int` this
is the plain decimal value. -/
def atoi (s : CStr) : Int :=
  match s.dropWhile isspace with
  | 45 :: rest => wrap32 (max (- (atoi_digits rest 0 : Int)) (- LONG_MAX - 1))
  | 43 :: rest => wrap32 (min (atoi_digits rest 0 : Int) LONG_MAX)
  | rest => wrap32 (min (atoi_digits rest 0 : Int) LONG_MAX)

/-! ## Data model (reslist.h, as used by resrules.c) -/

/-- Modelled from the spec: the attribute flag bits `RA_PRIMARY`, `RA_UNIQUE`,
`RA_REQUIRED`, `RA_INHERIT` of reslist.h, which is not part of the sources; the
spec describes `flags` as a bitset of required, unique, primary, inherit. -/
def RA_PRIMARY : Nat := 1
/-- Modelled from the spec: see `RA_PRIMARY`. -/
def RA_UNIQUE : Nat := 2
/-- Modelled from the spec: see `RA_PRIMARY`. -/
def RA_REQUIRED : Nat := 4
/-- Modelled from the spec: see `RA_PRIMARY`. -/
def RA_INHERIT : Nat := 8

/-- Modelled from the spec: `resource_attr_t` of reslist.h, which is not part
of the sources, with the fields resrules.c assigns; the spec's Attribute:
name, value, flags. -/
structure resource_attr_t where
  ra_name : CStr
  ra_value : Option CStr
  ra_flags : Nat
  deriving DecidableEq, Repr

/-- Modelled from the spec: `resource_act_t` of reslist.h, which is not part of
the sources, with the fields resrules.c assigns; the spec's Action: name,
depth, timeout hint, interval. -/
structure resource_act_t where
  ra_name : CStr
  ra_depth : Int
  ra_timeout : Int
  ra_interval : Int
  deriving DecidableEq, Repr

/-- Modelled from the spec: `resource_child_t` of reslist.h, which is not part
of the sources, with the fields resrules.c assigns; the spec's
ChildTypeConstraint: child type name, start level, stop level, forbid, and the
inline-defined flag. -/
structure resource_child_t where
  rc_name : CStr
  rc_startlevel : Int
  rc_stoplevel : Int
  rc_forbid : Int
  rc_flags : Int
  deriving DecidableEq, Repr

/-- Modelled from the spec: `resource_rule_t` of reslist.h, which is not part
of the sources, with the fields resrules.c reads or writes; the spec's
RuleDefinition: type name, agent path, version, max instances, attributes,
actions, child types. -/
structure resource_rule_t where
  rr_type : CStr
  rr_agent : Option CStr
  rr_version : Option CStr
  rr_maxrefs : Int
  rr_attrs : List resource_attr_t
  rr_actions : List resource_act_t
  rr_childtypes : List resource_child_t
  deriving DecidableEq, Repr

/-! ## Rule registry -/

/-- Modelled from the spec: the macros `list_do`, `list_done` and `list_insert`
come from list.h, which is not part of the sources.  They are read as one walk
around the circular list starting at its head, and as linking a node in right
before a given node, which for the head node means last in the walk; the spec
has the new rule inserted at the position that keeps the order, the head
reference being updated when it sorts first.  With that reading this is the
second loop of `store_rule` together with the final `list_insert`: the new
rule goes right before the first node it sorts strictly below (becoming the
head when that node is the head), or at the tail when there is none. -/
def insert_sorted (newrule : resource_rule_t) :
    List resource_rule_t → List resource_rule_t
  | [] => [newrule]
  | curr :: rest =>
    if strcasecmp newrule.rr_type curr.rr_type < 0 then newrule :: curr :: rest
    else curr :: insert_sorted newrule rest

/-- Function `store_rule(rulelist, newrule)`: the return value and the list
afterwards.  The first loop walks the whole list and returns -1 at a node
whose type is `strcasecmp`-equal to the new one. -/
def store_rule (rulelist : List resource_rule_t) (newrule : resource_rule_t) :
    Int × List resource_rule_t :=
  if rulelist.any (fun curr => strcasecmp newrule.rr_type curr.rr_type == 0) then
    (-1, rulelist)
  else
    (0, insert_sorted newrule rulelist)

/-- Function `find_rule_by_type(rulelist, type)`: the first node whose type is `strcmp`
equal to `type`, or NULL. -/
def find_rule_by_type : List resource_rule_t → CStr → Option resource_rule_t
  | [], _ => none
  | curr :: rest, type =>
    if strcmp curr.rr_type type = 0 then some curr
    else find_rule_by_type rest type

/-- Calling `store_rule` for each rule of a sequence in turn: the return values
in call order and the final list. -/
def store_rules : List resource_rule_t → List resource_rule_t →
    List Int × List resource_rule_t
  | rulelist, [] => ([], rulelist)
  | rulelist, r :: rs =>
    let res := store_rule rulelist r
    let tl := store_rules res.2 rs
    (res.1 :: tl.1, tl.2)

/-! ## Duration expressions -/

/-- Function `expand_time(val)`.  `c` is the last byte `val[l - 1]`; an `int` product
is reduced to 32 bits.  For the empty string the source reads `val[-1]`; the
byte read there is never used, since `atoi` gives 0 and the function returns
at the first test. -/
def expand_time (val : CStr) : Int :=
  let c := val.getLastD 0
  let ret := atoi val
  if ret ≤ 0 then 0
  else if 48 ≤ c ∧ c ≤ 57 then ret
  else if c = 83 ∨ c = 115 then ret
  else if c = 77 ∨ c = 109 then wrap32 (ret * 60)
  else if c = 104 ∨ c = 72 then wrap32 (ret * 3600)
  else if c = 100 ∨ c = 68 then wrap32 (ret * 86400)
  else if c = 119 ∨ c = 87 then wrap32 (ret * 604800)
  else if c = 121 ∨ c = 89 then wrap32 (ret * 31536000)
  else ret

/-! ## Actions -/

/-- Test of the replace loop of `store_action`: same name under `strcmp` and
the given depth equal to the entry's depth or equal to -1. -/
def action_matches (name : CStr) (depth : Int) (a : resource_act_t) : Bool :=
  strcmp a.ra_name name = 0 && (depth = a.ra_depth || depth = -1)

/-- Body of the replace loop of `store_action` on one entry. -/
def action_replace (name : CStr) (depth timeout interval : Int)
    (a : resource_act_t) : resource_act_t :=
  if action_matches name depth a then
    { a with
      ra_timeout := if timeout ≥ 0 then timeout else a.ra_timeout
      ra_interval := if interval ≥ 0 then interval else a.ra_interval }
  else a

/-- Function `store_action(actsp, name, depth, timeout, interval)`: the return value and
the array afterwards. -/
def store_action (acts : List resource_act_t) (name : Option CStr)
    (depth timeout interval : Int) : Int × List resource_act_t :=
  match name with
  | none => (-1, acts)
  | some name =>
    if depth < 0 ∧ timeout < 0 ∧ interval < 0 then (-1, acts)
    else
      match acts with
      | [] =>
        if depth < 0 ∨ timeout < 0 ∨ interval < 0 then (-1, [])
        else (0, [⟨name, depth, timeout, interval⟩])
      | _ :: _ =>
        if acts.any (action_matches name depth) then
          (1, acts.map (action_replace name depth timeout interval))
        else if depth < 0 ∨ timeout < 0 ∨ interval < 0 then (-1, acts)
        else (0, acts ++ [⟨name, depth, timeout, interval⟩])

/-! ## Attributes and child types -/

/-- Function `store_attribute(attrsp, name, value, flags)`: the return value and the
array afterwards.  With `RA_PRIMARY` the former first entry moves to the end
and the new one takes index 0. -/
def store_attribute (attrs : List resource_attr_t) (name : Option CStr)
    (value : Option CStr) (flags : Nat) : Int × List resource_attr_t :=
  match name with
  | none => (-1, attrs)
  | some name =>
    match attrs with
    | [] => (0, [⟨name, value, flags⟩])
    | first :: rest =>
      if flags &&& RA_PRIMARY ≠ 0 then
        (0, ⟨name, value, flags⟩ :: rest ++ [first])
      else
        (0, first :: rest ++ [⟨name, value, flags⟩])

/-- Function `store_childtype(childp, name, start, stop, forbid, flags)`: the
return value and the array afterwards; the new entry goes last. -/
def store_childtype (child : List resource_child_t) (name : Option CStr)
    (start stop forbid flags : Int) : Int × List resource_child_t :=
  match name with
  | none => (-1, child)
  | some name => (0, child ++ [⟨name, start, stop, forbid, flags⟩])

/-! ## The metadata document, as seen through `xpath_get_one`

The helper `xpath_get_one` and the XML library are not part of the sources.
Every query of resrules.c has the shape
`/resource-agent[i]/.../item[x]/@attribute`; the document is therefore the
table of the answers: `none` where `xpath_get_one` returns NULL. -/

/-- Modelled from the spec: the answers of `xpath_get_one` for one
`parameters/parameter[x]`; the spec's parameter entry: name, optional default,
optional required, unique, primary and inherit markers, the name itself
possibly missing. -/
structure xml_parameter where
  name : Option CStr
  content_default : Option CStr
  required : Option CStr
  unique : Option CStr
  primary : Option CStr
  inherit : Option CStr
  deriving DecidableEq, Repr

/-- Modelled from the spec: the answers of `xpath_get_one` for one
`actions/action[x]`; the spec's action entry: name, optional timeout, optional
interval, optional depth. -/
structure xml_action where
  name : Option CStr
  timeout : Option CStr
  interval : Option CStr
  depth : Option CStr
  deriving DecidableEq, Repr

/-- Modelled from the spec: the answers of `xpath_get_one` for one
`special[@tag="rgmanager"]/child[x]`; the spec's child entry: type, optional
start and stop levels, optional forbid marker. -/
structure xml_child where
  type : Option CStr
  start : Option CStr
  stop : Option CStr
  forbid : Option CStr
  deriving DecidableEq, Repr

/-- Modelled from the spec: the answers of `xpath_get_one` under one
`/resource-agent[i]`; the spec's resource-agent block: type name, optional
version, optional max-instances under the vendor tag, child entries, action
entries, parameter entries. -/
structure xml_agent where
  name : Option CStr
  version : Option CStr
  maxinstances : Option CStr
  children : List xml_child
  actions : List xml_action
  parameters : List xml_parameter
  deriving DecidableEq, Repr

/-! ## Schema extraction -/

/-- Function `_get_maxparents`: `rr_maxrefs` becomes `atoi` of the
`maxinstances` answer when there is one, a negative value giving 0. -/
def _get_maxparents (maxinstances : Option CStr) (rr : resource_rule_t) :
    resource_rule_t :=
  match maxinstances with
  | some ret =>
    let m := atoi ret
    { rr with rr_maxrefs := if m < 0 then 0 else m }
  | none => rr

/-- Function `_get_version`: the source stores the string, frees it, and then sets
`rr_version` to NULL on every path. -/
def _get_version (version : Option CStr) (rr : resource_rule_t) :
    resource_rule_t :=
  let rr := match version with
    | some ret => { rr with rr_version := some ret }
    | none => rr
  { rr with rr_version := none }

/-- Depth, timeout and interval that `_get_actions` passes to `store_action`
for the action block `a` named `act`. -/
def action_args (act : CStr) (a : xml_action) : Int × Int × Int :=
  let timeout := match a.timeout with
    | some ret => let t := expand_time ret; if t < 0 then 0 else t
    | none => 0
  let interval := match a.interval with
    | some ret => let i := expand_time ret; if i < 0 then 0 else i
    | none => 0
  let depth :=
    if strcmp act (cstr "status") = 0 ∨ strcmp act (cstr "monitor") = 0 then
      match a.depth with
      | some ret => let d := atoi ret; if d < 0 then 0 else d
      | none => 0
    else 0
  (depth, timeout, interval)

/-- Loop of `_get_actions` over `action[1]`, `action[2]`, ... -/
def _get_actions_loop : List xml_action → List resource_act_t → List resource_act_t
  | [], acts => acts
  | a :: rest, acts =>
    match a.name with
    | none => acts
    | some act =>
      let args := action_args act a
      _get_actions_loop rest (store_action acts (some act) args.1 args.2.1 args.2.2).2

/-- Function `_get_actions`, on the action array of the rule. -/
def _get_actions (actions : List xml_action) (rr : resource_rule_t) :
    resource_rule_t :=
  { rr with rr_actions := _get_actions_loop actions rr.rr_actions }

/-- The test `(atoi(ret) != 0) || (ret[0] == 'y')` of `_get_rule_attrs`. -/
def truthy (ret : CStr) : Bool := atoi ret ≠ 0 || ret.head? = some 121

/-- Flag update for the `required` and `unique` markers. -/
def marker_flag (marker : Option CStr) (bit flags : Nat) : Nat :=
  match marker with
  | some ret => if truthy ret then flags ||| bit else flags
  | none => flags

/-- Whether the `primary` marker is present and true. -/
def marker_true (marker : Option CStr) : Bool :=
  match marker with
  | some ret => truthy ret
  | none => false

/-- Loop of `_get_rule_attrs` over `parameter[1]`, `parameter[2]`, ... with
the local `primary_found` and the attribute array as state; the result is the
return value and the attribute array at that point. -/
def _get_rule_attrs_loop : List xml_parameter → Bool → List resource_attr_t →
    Int × List resource_attr_t
  | [], _, attrs => (0, attrs)
  | p :: rest, primary_found, attrs =>
    match p.name with
    | none => (0, attrs)
    | some attrname =>
      let dflt := p.content_default
      let flags := marker_flag p.required RA_REQUIRED 0
      let flags := marker_flag p.unique RA_UNIQUE flags
      if marker_true p.primary && primary_found then (-1, attrs)
      else
        let flags := if marker_true p.primary then flags ||| RA_PRIMARY else flags
        let primary_found := primary_found || marker_true p.primary
        match p.inherit with
        | some ret =>
          let flags := flags ||| RA_INHERIT
          if flags &&& (RA_REQUIRED ||| RA_PRIMARY ||| RA_UNIQUE) ≠ 0 then (-1, attrs)
          else
            _get_rule_attrs_loop rest primary_found
              (store_attribute attrs (some attrname) (some ret) flags).2
        | none =>
          _get_rule_attrs_loop rest primary_found
            (store_attribute attrs (some attrname) dflt flags).2

/-- Function `_get_rule_attrs`: the return value and the rule afterwards. -/
def _get_rule_attrs (parameters : List xml_parameter) (rr : resource_rule_t) :
    Int × resource_rule_t :=
  let res := _get_rule_attrs_loop parameters false rr.rr_attrs
  (res.1, { rr with rr_attrs := res.2 })

/-- Loop of `_get_childtypes` over `child[1]`, `child[2]`, ... -/
def _get_childtypes_loop : List xml_child → List resource_child_t →
    List resource_child_t
  | [], child => child
  | c :: rest, child =>
    match c.type with
    | none => child
    | some childname =>
      let startlevel := match c.start with | some ret => atoi ret | none => 0
      let stoplevel := match c.stop with | some ret => atoi ret | none => 0
      let forbid := match c.forbid with | some ret => atoi ret | none => 0
      _get_childtypes_loop rest
        (store_childtype child (some childname) startlevel stoplevel forbid 0).2

/-- Function `_get_childtypes`, on the child array of the rule. -/
def _get_childtypes (children : List xml_child) (rr : resource_rule_t) :
    resource_rule_t :=
  { rr with rr_childtypes := _get_childtypes_loop children rr.rr_childtypes }

/-! ## Rule builder -/

/-- The rule assembled by `load_resource_rulefile` for the block `b` of type
`type`, up to and including `_get_actions`. -/
def build_rule (filename : CStr) (type : CStr) (b : xml_agent) : resource_rule_t :=
  let rr : resource_rule_t := ⟨type, none, none, 0, [], [], []⟩
  let rr := _get_version b.version rr
  let rr := _get_maxparents b.maxinstances rr
  let rr := { rr with rr_agent := some filename }
  let rr := _get_childtypes b.children rr
  _get_actions b.actions rr

/-- One pass through the body of the `do ... while (1)` loop of
`load_resource_rulefile` on the block `b`: whether the loop goes on (`false`
for `break`), and the rule list afterwards. -/
def load_block (filename : CStr) (b : xml_agent) (rules : List resource_rule_t) :
    Bool × List resource_rule_t :=
  match b.name with
  | none => (false, rules)
  | some type =>
    if strcasecmp type (cstr "action") = 0 then (false, rules)
    else
      let res := _get_rule_attrs b.parameters (build_rule filename type b)
      if res.1 < 0 then (true, rules)
      else
        let st := store_rule rules res.2
        if st.1 ≠ 0 then (true, rules) else (true, st.2)

/-- The `do ... while (1)` loop of `load_resource_rulefile` over
`/resource-agent[1]`, `/resource-agent[2]`, ... -/
def load_loop (filename : CStr) : List xml_agent → List resource_rule_t →
    List resource_rule_t
  | [], rules => rules
  | b :: rest, rules =>
    let res := load_block filename b rules
    if res.1 then load_loop filename rest res.2 else res.2

/-- Function `load_resource_rulefile(filename, rules)`; `doc` is what
`read_resource_agent_metadata(filename)` returned, `none` for NULL. -/
def load_resource_rulefile (filename : CStr) (doc : Option (List xml_agent))
    (rules : List resource_rule_t) : Int × List resource_rule_t :=
  match doc with
  | none => (0, rules)
  | some blocks => (0, load_loop filename blocks rules)

/-! ## Predicates and concrete inputs used in the theorems -/

/-- Strict case-insensitive order of two rules by type name. -/
def rule_lt (a b : resource_rule_t) : Prop := strcasecmp a.rr_type b.rr_type < 0

/-- Three rules named "b", "A" and "c", in that order. -/
def rules_b_A_c : List resource_rule_t :=
  [⟨cstr "b", none, none, 0, [], [], []⟩, ⟨cstr "A", none, none, 0, [], [], []⟩,
   ⟨cstr "c", none, none, 0, [], [], []⟩]

/-- A rule with the given type name and nothing else set. -/
def bare_rule (type : CStr) : resource_rule_t := ⟨type, none, none, 0, [], [], []⟩

/-- A registry holding the rules "fs", "ip" and "VM", as `store_rule` orders them. -/
def registry_fs_ip_VM : List resource_rule_t :=
  [bare_rule (cstr "fs"), bare_rule (cstr "ip"), bare_rule (cstr "VM")]

/-- Decimal numeral of `n`, most significant digit first. -/
def decimal (n : Nat) : CStr := (Nat.digits 10 n).reverse.map (· + 48)

/-- Seconds per unit letter, as the spec lists them: `s`=1, `m`=60, `h`=3600,
`d`=86400, `w`=604800, `y`=31536000, in either letter case. -/
def unit_seconds (u : Nat) : Option Int :=
  if u = 115 ∨ u = 83 then some 1
  else if u = 109 ∨ u = 77 then some 60
  else if u = 104 ∨ u = 72 then some 3600
  else if u = 100 ∨ u = 68 then some 86400
  else if u = 119 ∨ u = 87 then some 604800
  else if u = 121 ∨ u = 89 then some 31536000
  else none

/-- The parameter blocks that the loop of `_get_rule_attrs` reaches: those
before the first one whose name query gives NULL. -/
def scanned (ps : List xml_parameter) : List xml_parameter :=
  ps.takeWhile (fun p => p.name.isSome)

/-- A parameter that declares `inherit` together with a true `required`,
`unique` or `primary` marker. -/
def inherit_conflict (p : xml_parameter) : Bool :=
  p.inherit.isSome &&
    (marker_true p.required || marker_true p.unique || marker_true p.primary)

/-- A parameter block with the given name and markers left out. -/
def plain_param (name : String) : xml_parameter :=
  ⟨some (cstr name), none, none, none, none, none⟩

/-- A block of type "fs": parameter "a" marked primary, then a parameter block
without a name, then parameter "b" marked primary. -/
def agent_primary_after_gap : xml_agent :=
  { name := some (cstr "fs"), version := none, maxinstances := none,
    children := [], actions := [],
    parameters :=
      [{ plain_param "a" with primary := some (cstr "1") },
       { plain_param "" with name := none },
       { plain_param "b" with primary := some (cstr "1") }] }

/-- A block of type "fs" whose parameters "a" and "b" are both marked primary. -/
def agent_two_primary : xml_agent :=
  { name := some (cstr "fs"), version := none, maxinstances := none,
    children := [], actions := [],
    parameters :=
      [{ plain_param "a" with primary := some (cstr "1") },
       { plain_param "b" with primary := some (cstr "yes") }] }

/-- A block of type "fs": a parameter block without a name, then parameter "b"
declaring `inherit` together with `required="1"`. -/
def agent_conflict_after_gap : xml_agent :=
  { name := some (cstr "fs"), version := none, maxinstances := none,
    children := [], actions := [],
    parameters :=
      [{ plain_param "" with name := none },
       { plain_param "b" with
           required := some (cstr "1"), inherit := some (cstr "service%name") }] }

/-- A block of type "fs" whose parameter "b" declares `inherit` together with
`required="1"`. -/
def agent_inherit_required : xml_agent :=
  { name := some (cstr "fs"), version := none, maxinstances := none,
    children := [], actions := [],
    parameters :=
      [plain_param "a",
       { plain_param "b" with
           required := some (cstr "1"), inherit := some (cstr "service%name") }] }

/-- The attribute that the spec describes for a parameter block: its name; as
value the inheritance expression when `inherit` is declared and the default
otherwise; as flags the true required, unique and primary markers, and the
inherit flag when `inherit` is declared. -/
def stored_attr (p : xml_parameter) : resource_attr_t :=
  { ra_name := p.name.getD []
    ra_value := match p.inherit with
      | some e => some e
      | none => p.content_default
    ra_flags :=
      (if marker_true p.required then RA_REQUIRED else 0) |||
      (if marker_true p.unique then RA_UNIQUE else 0) |||
      (if marker_true p.primary then RA_PRIMARY else 0) |||
      (if p.inherit.isSome then RA_INHERIT else 0) }

/-- Parameters "user" (inherit and a default), "path" (a default, required) and
"mode" (nothing else). -/
def params_user_path_mode : List xml_parameter :=
  [{ plain_param "user" with
       content_default := some (cstr "root"), inherit := some (cstr "service%user") },
   { plain_param "path" with
       content_default := some (cstr "/mnt"), required := some (cstr "1") },
   plain_param "mode"]

/-- An action array with "start", then "monitor" at depth 10, then "monitor"
at depth 20. -/
def acts_start_monitor : List resource_act_t :=
  [⟨cstr "start", 0, 30, 0⟩, ⟨cstr "monitor", 10, 20, 60⟩, ⟨cstr "monitor", 20, 40, 300⟩]

/-- A block with the given type name and nothing else. -/
def bare_agent (name : String) : xml_agent :=
  { name := some (cstr name), version := none, maxinstances := none,
    children := [], actions := [], parameters := [] }

/-- A document with the blocks "nfs", "Action" and "lvm", in that order. -/
def doc_nfs_Action_lvm : List xml_agent :=
  [bare_agent "nfs", bare_agent "Action", bare_agent "lvm"]

/-- One result of `read(fd, buf, sizeof(buf))` on the pipe: an error (`n < 0`),
or the `n` bytes delivered, `n = 0` being the end of the stream. -/
inductive read_result where
  | error : read_result
  | data : List Nat → read_result
  deriving DecidableEq, Repr

/-- Loop of `read_pipe` with `*file` and `*length` as state; the argument lists
the results of the successive `read` calls, and once it is used up `read`
reports the end of the stream.  The result is the return value, `*file` and
`*length`.  A pass with `n != sizeof(buf)` sets `done`, takes one byte more
than `n` and is the last one; the byte at `*length - 1` is then set to NUL. -/
def read_pipe_loop : List read_result → Option (List Nat) → Nat →
    Int × Option (List Nat) × Nat
  | [], file, length =>
    if length = 0 then (0, file, length)
    else (0, some (file.getD [] ++ [0]), length + 1)
  | read_result.error :: _, _, length => (-1, none, length)
  | read_result.data buf :: rest, file, length =>
    if buf.length = 0 ∧ length = 0 then (0, file, length)
    else if buf.length ≠ 4096 then
      (0, some (file.getD [] ++ buf ++ [0]), length + (1 + buf.length))
    else read_pipe_loop rest (some (file.getD [] ++ buf)) (length + buf.length)

/-- Function `read_pipe(fd, file, length)`, the pipe given by the results of
its `read` calls. -/
def read_pipe (reads : List read_result) : Int × Option (List Nat) × Nat :=
  read_pipe_loop reads none 0

/-- A block of type "fs" that reports version "1.1". -/
def agent_fs_version : xml_agent :=
  { bare_agent "fs" with version := some (cstr "1.1") }

/-- A pipe that delivers "<a>", then "</a>", then the end of the stream. -/
def reads_two_short : List read_result :=
  [read_result.data (cstr "<a>"), read_result.data (cstr "</a>"), read_result.data []]

/-- The parameters of the "vm" block of the end-to-end example: "name" marked
primary and required, and "domain" with the default `dflt` and no marker;
`name_first` tells whether "name" comes before "domain" in the document. -/
def params_vm (dflt : Option CStr) (name_first : Bool) : List xml_parameter :=
  let p_name : xml_parameter :=
    { plain_param "name" with primary := some (cstr "1"), required := some (cstr "1") }
  let p_domain : xml_parameter := { plain_param "domain" with content_default := dflt }
  if name_first then [p_name, p_domain] else [p_domain, p_name]

/-- The "vm" block of the end-to-end example: the parameters `params_vm`, the
action "monitor" with interval "30s" and depth "1", and a child entry of type
"service" with forbid set. -/
def agent_vm (dflt : Option CStr) (name_first : Bool) : xml_agent :=
  { name := some (cstr "vm"), version := none, maxinstances := none,
    children := [⟨some (cstr "service"), none, none, some (cstr "1")⟩],
    actions := [⟨some (cstr "monitor"), none, some (cstr "30s"), some (cstr "1")⟩],
    parameters := params_vm dflt name_first }

/-- The registry obtained by storing the one rule "VM" into the empty list. -/
def registry_VM : List resource_rule_t := (store_rule [] (bare_rule (cstr "VM"))).2

/-- A parameter "user" that declares `inherit="0"` and nothing else. -/
def param_inherit_zero : xml_parameter :=
  { plain_param "user" with inherit := some (cstr "0") }

/-- A sequence of `store_action` calls on one array, each call given by its
name, depth, timeout and interval; failing calls leave the array as it is. -/
def store_actions : List resource_act_t → List (Option CStr × Int × Int × Int) →
    List resource_act_t
  | acts, [] => acts
  | acts, c :: cs => store_actions (store_action acts c.1 c.2.1 c.2.2.1 c.2.2.2).2 cs

/-- Parameters "mode", then "name" marked primary, then "path". -/
def params_mode_name_path : List xml_parameter :=
  [plain_param "mode", { plain_param "name" with primary := some (cstr "1") },
   plain_param "path"]

/-- What `store_action` with depth -1 does to one entry, in the words of the
amended claim: an entry named `name` takes the given timeout and interval
where these are not negative, and any other entry stays as it is. -/
def apply_all_depths (name : CStr) (timeout interval : Int) (a : resource_act_t) :
    resource_act_t :=
  if strcmp a.ra_name name = 0 then
    { a with
      ra_timeout := if timeout ≥ 0 then timeout else a.ra_timeout
      ra_interval := if interval ≥ 0 then interval else a.ra_interval }
  else a

/-- An attribute array with "mode", "path" and "user", none of them primary. -/
def attrs_mode_path_user : List resource_attr_t :=
  [⟨cstr "mode", none, 0⟩, ⟨cstr "path", some (cstr "/mnt"), RA_REQUIRED⟩,
   ⟨cstr "user", some (cstr "service%user"), RA_INHERIT⟩]

/-! # Theorems -/

/-! ## Facts about the string comparisons -/

theorem strcasecmp_swap (a b : CStr) : strcasecmp b a = - strcasecmp a b := by
  induction a generalizing b with
  | nil => cases b <;> simp [strcasecmp]
  | cons x xs ih =>
    cases b with
    | nil => simp [strcasecmp]
    | cons y ys =>
      by_cases h : tolower x = tolower y
      · simp [strcasecmp, h, ih ys]
      · have h2 : ¬ tolower y = tolower x := fun e => h e.symm
        simp [strcasecmp, h, h2]

theorem strcasecmp_lt_trans (a b c : CStr) (hab : strcasecmp a b < 0)
    (hbc : strcasecmp b c < 0) : strcasecmp a c < 0 := by
  induction a generalizing b c with
  | nil =>
    cases b with
    | nil => simp [strcasecmp] at hab
    | cons y ys =>
      cases c with
      | nil => simp [strcasecmp] at hbc; omega
      | cons z zs =>
        simp only [strcasecmp] at hab hbc ⊢
        split at hbc <;> omega
  | cons x xs ih =>
    cases b with
    | nil => simp [strcasecmp] at hab; omega
    | cons y ys =>
      cases c with
      | nil => simp [strcasecmp] at hbc; omega
      | cons z zs =>
        simp only [strcasecmp] at hab hbc ⊢
        by_cases h1 : tolower x = tolower y <;> by_cases h2 : tolower y = tolower z
        · simp only [h1, h2, if_true] at hab hbc ⊢
          exact ih ys zs hab hbc
        · simp only [h1, h2, if_true, if_false] at hab hbc ⊢
          exact hbc
        · have h3 : ¬ tolower x = tolower z := by omega
          rw [if_neg h1] at hab
          rw [if_neg h3]; omega
        · simp only [h1, h2, if_false] at hab hbc ⊢
          have : ¬ tolower x = tolower z := by omega
          simp only [this, if_false]; omega

theorem strcasecmp_self (a : CStr) : strcasecmp a a = 0 := by
  induction a with
  | nil => rfl
  | cons x xs ih => simp [strcasecmp, ih]

theorem strcmp_self (a : CStr) : strcmp a a = 0 := by
  induction a with
  | nil => rfl
  | cons x xs ih => simp [strcmp, ih]

theorem strcmp_eq_zero (a b : CStr) (ha : isCStr a) (hb : isCStr b) :
    strcmp a b = 0 ↔ a = b := by
  induction a generalizing b with
  | nil =>
    cases b with
    | nil => simp [strcmp]
    | cons y ys =>
      have := (hb y (List.mem_cons_self _ _)).1
      simp [strcmp]; omega
  | cons x xs ih =>
    cases b with
    | nil =>
      have := (ha x (List.mem_cons_self _ _)).1
      simp [strcmp]; omega
    | cons y ys =>
      have hxs : isCStr xs := fun c hc => ha c (List.mem_cons_of_mem _ hc)
      have hys : isCStr ys := fun c hc => hb c (List.mem_cons_of_mem _ hc)
      by_cases h : x = y
      · simp [strcmp, h, ih ys hxs hys]
      · simp only [strcmp, h, if_false, List.cons.injEq, false_and, iff_false]
        omega

/-! ## The registry stays sorted -/

theorem insert_sorted_perm (newrule : resource_rule_t) (l : List resource_rule_t) :
    (insert_sorted newrule l).Perm (newrule :: l) := by
  induction l with
  | nil => exact List.Perm.refl _
  | cons curr rest ih =>
    unfold insert_sorted
    split
    · exact List.Perm.refl _
    · exact (List.Perm.cons curr ih).trans (List.Perm.swap newrule curr rest)

theorem insert_sorted_pairwise (newrule : resource_rule_t) (l : List resource_rule_t)
    (hs : l.Pairwise rule_lt)
    (hne : ∀ x ∈ l, strcasecmp newrule.rr_type x.rr_type ≠ 0) :
    (insert_sorted newrule l).Pairwise rule_lt := by
  induction l with
  | nil => simp [insert_sorted]
  | cons curr rest ih =>
    have hcr := List.pairwise_cons.mp hs
    unfold insert_sorted
    split
    · rename_i hlt
      refine List.pairwise_cons.mpr ⟨?_, hs⟩
      intro y hy
      rcases List.mem_cons.mp hy with rfl | hy
      · exact hlt
      · exact strcasecmp_lt_trans _ _ _ hlt (hcr.1 y hy)
    · rename_i hge
      have hcn : rule_lt curr newrule := by
        have h0 := hne curr (List.mem_cons_self _ _)
        have hsw := strcasecmp_swap newrule.rr_type curr.rr_type
        unfold rule_lt
        omega
      refine List.pairwise_cons.mpr ⟨?_, ih hcr.2 (fun x hx => hne x (List.mem_cons_of_mem _ hx))⟩
      intro y hy
      rcases List.mem_cons.mp ((insert_sorted_perm newrule rest).subset hy) with rfl | hy
      · exact hcn
      · exact hcr.1 y hy

theorem store_rule_fresh (rulelist : List resource_rule_t) (newrule : resource_rule_t)
    (hne : ∀ x ∈ rulelist, strcasecmp newrule.rr_type x.rr_type ≠ 0) :
    store_rule rulelist newrule = (0, insert_sorted newrule rulelist) := by
  unfold store_rule
  rw [if_neg]
  simp only [List.any_eq_true, beq_iff_eq, not_exists, not_and]
  exact hne

theorem store_rules_inv (rs rulelist : List resource_rule_t)
    (hs : rulelist.Pairwise rule_lt)
    (hd : rs.Pairwise (fun a b => strcasecmp a.rr_type b.rr_type ≠ 0))
    (hx : ∀ r ∈ rs, ∀ x ∈ rulelist, strcasecmp r.rr_type x.rr_type ≠ 0) :
    (store_rules rulelist rs).1 = List.replicate rs.length 0 ∧
    (store_rules rulelist rs).2.Perm (rs ++ rulelist) ∧
    (store_rules rulelist rs).2.Pairwise rule_lt := by
  induction rs generalizing rulelist with
  | nil => simp [store_rules, hs]
  | cons r rs ih =>
    have hdc := List.pairwise_cons.mp hd
    have hfresh := store_rule_fresh rulelist r (hx r (List.mem_cons_self _ _))
    have hs2 := insert_sorted_pairwise r rulelist hs (hx r (List.mem_cons_self _ _))
    have hx2 : ∀ q ∈ rs, ∀ x ∈ insert_sorted r rulelist,
        strcasecmp q.rr_type x.rr_type ≠ 0 := by
      intro q hq x hxm
      rcases List.mem_cons.mp ((insert_sorted_perm r rulelist).subset hxm) with rfl | hxm
      · have h1 := hdc.1 q hq
        have h2 := strcasecmp_swap x.rr_type q.rr_type
        omega
      · exact hx q (List.mem_cons_of_mem _ hq) x hxm
    obtain ⟨i1, i2, i3⟩ := ih (insert_sorted r rulelist) hs2 hdc.2 hx2
    simp only [store_rules, hfresh, List.length_cons, List.replicate_succ]
    refine ⟨by rw [i1], ?_, i3⟩
    refine i2.trans ?_
    refine (List.perm_append_comm).trans ?_
    refine ((insert_sorted_perm r rulelist).append_right rs).trans ?_
    simp only [List.cons_append]
    exact List.Perm.cons r List.perm_append_comm

/-- C1: storing rules whose type names are pairwise distinct under `strcasecmp`
into the empty list returns 0 at every call; the final list holds exactly those
rules, in strictly ascending `strcasecmp` order of type name; and every
permutation of the insertion sequence ends in the same list. -/
theorem store_rule_sorted_any_order (rs : List resource_rule_t)
    (hd : rs.Pairwise (fun a b => strcasecmp a.rr_type b.rr_type ≠ 0)) :
    (store_rules [] rs).1 = List.replicate rs.length 0 ∧
    (store_rules [] rs).2.Perm rs ∧
    (store_rules [] rs).2.Pairwise
      (fun a b => strcasecmp a.rr_type b.rr_type < 0) ∧
    ∀ rs2 : List resource_rule_t, rs2.Perm rs →
      (store_rules [] rs2).1 = List.replicate rs2.length 0 ∧
      (store_rules [] rs2).2 = (store_rules [] rs).2 := by
  have key : ∀ l : List resource_rule_t,
      l.Pairwise (fun a b => strcasecmp a.rr_type b.rr_type ≠ 0) →
      (store_rules [] l).1 = List.replicate l.length 0 ∧
      (store_rules [] l).2.Perm l ∧ (store_rules [] l).2.Pairwise rule_lt := by
    intro l hl
    have h := store_rules_inv l [] List.Pairwise.nil hl (by simp)
    simpa using h
  obtain ⟨h1, h2, h3⟩ := key rs hd
  refine ⟨h1, h2, h3, ?_⟩
  intro rs2 hp
  have hd2 : rs2.Pairwise (fun a b => strcasecmp a.rr_type b.rr_type ≠ 0) := by
    refine (List.Perm.pairwise_iff ?_ hp).mpr hd
    intro a b hab hba
    have := strcasecmp_swap a.rr_type b.rr_type
    omega
  obtain ⟨g1, g2, g3⟩ := key rs2 hd2
  haveI : IsAntisymm resource_rule_t rule_lt := ⟨fun a b hab hba => by
    unfold rule_lt at hab hba
    rw [strcasecmp_swap a.rr_type b.rr_type] at hba
    omega⟩
  exact ⟨g1, List.eq_of_perm_of_sorted (g2.trans (hp.trans h2.symm)) g3 h3⟩

theorem store_rule_sorted_any_order_witness :
    rules_b_A_c.Pairwise (fun a b => strcasecmp a.rr_type b.rr_type ≠ 0) ∧
    (store_rules [] rules_b_A_c).1 = List.replicate rules_b_A_c.length 0 ∧
    (store_rules [] rules_b_A_c).2.Perm rules_b_A_c ∧
    (store_rules [] rules_b_A_c).2.Pairwise
      (fun a b => strcasecmp a.rr_type b.rr_type < 0) ∧
    ∀ rs2 : List resource_rule_t, rs2.Perm rules_b_A_c →
      (store_rules [] rs2).1 = List.replicate rs2.length 0 ∧
      (store_rules [] rs2).2 = (store_rules [] rules_b_A_c).2 :=
  ⟨by decide, store_rule_sorted_any_order rules_b_A_c (by decide)⟩

/-! ## Duplicates and lookup -/

/-- C2: when the type name of the new rule is `strcasecmp`-equal to that of a
rule already in the list, `store_rule` returns -1 and the list is the same
list as before: same head, same members, same order. -/
theorem store_rule_duplicate_rejected (rulelist : List resource_rule_t)
    (newrule : resource_rule_t)
    (h : ∃ curr ∈ rulelist, strcasecmp newrule.rr_type curr.rr_type = 0) :
    (store_rule rulelist newrule).1 = -1 ∧
    (store_rule rulelist newrule).2 = rulelist := by
  obtain ⟨curr, hmem, heq⟩ := h
  have hany : rulelist.any
      (fun curr => strcasecmp newrule.rr_type curr.rr_type == 0) = true := by
    simp only [List.any_eq_true, beq_iff_eq]
    exact ⟨curr, hmem, heq⟩
  simp [store_rule, hany]

theorem store_rule_duplicate_rejected_witness :
    (∃ curr ∈ registry_fs_ip_VM,
      strcasecmp (bare_rule (cstr "Ip")).rr_type curr.rr_type = 0) ∧
    (store_rule registry_fs_ip_VM (bare_rule (cstr "Ip"))).1 = -1 ∧
    (store_rule registry_fs_ip_VM (bare_rule (cstr "Ip"))).2 = registry_fs_ip_VM :=
  ⟨⟨bare_rule (cstr "ip"), by decide, by decide⟩,
   store_rule_duplicate_rejected registry_fs_ip_VM (bare_rule (cstr "Ip"))
     ⟨bare_rule (cstr "ip"), by decide, by decide⟩⟩

theorem find_rule_by_type_some (rulelist : List resource_rule_t) (type : CStr)
    (r : resource_rule_t) (h : find_rule_by_type rulelist type = some r) :
    r ∈ rulelist ∧ strcmp r.rr_type type = 0 := by
  induction rulelist with
  | nil => simp [find_rule_by_type] at h
  | cons curr rest ih =>
    unfold find_rule_by_type at h
    split at h
    · rename_i h0
      cases h
      exact ⟨List.mem_cons_self _ _, h0⟩
    · exact ⟨List.mem_cons_of_mem _ (ih h).1, (ih h).2⟩

theorem find_rule_by_type_none (rulelist : List resource_rule_t) (type : CStr) :
    find_rule_by_type rulelist type = none ↔
      ∀ r ∈ rulelist, strcmp r.rr_type type ≠ 0 := by
  induction rulelist with
  | nil => simp [find_rule_by_type]
  | cons curr rest ih =>
    unfold find_rule_by_type
    split
    · rename_i h0
      simp [h0]
    · rename_i h0
      simp [ih, h0]

/-- C3: on well-formed C strings, `find_rule_by_type` returns only a rule of the
list whose type name is byte-for-byte `type`; it returns one whenever the list
holds such a rule; it returns NULL exactly when no rule of the list has that
type name; a rule whose name equals `type` only up to letter case is never the
result, and a list holding only such rules gives NULL. -/
theorem find_rule_by_type_exact (rulelist : List resource_rule_t) (type : CStr)
    (hwf : ∀ r ∈ rulelist, isCStr r.rr_type) (ht : isCStr type) :
    (∀ r, find_rule_by_type rulelist type = some r →
      r ∈ rulelist ∧ r.rr_type = type) ∧
    ((∃ r ∈ rulelist, r.rr_type = type) →
      ∃ r, find_rule_by_type rulelist type = some r ∧ r.rr_type = type) ∧
    (find_rule_by_type rulelist type = none ↔
      ∀ r ∈ rulelist, r.rr_type ≠ type) ∧
    ((∀ r ∈ rulelist, strcasecmp r.rr_type type = 0 ∧ r.rr_type ≠ type) →
      find_rule_by_type rulelist type = none) := by
  have hsome : ∀ r, find_rule_by_type rulelist type = some r →
      r ∈ rulelist ∧ r.rr_type = type := by
    intro r hr
    obtain ⟨hm, h0⟩ := find_rule_by_type_some rulelist type r hr
    exact ⟨hm, (strcmp_eq_zero _ _ (hwf r hm) ht).mp h0⟩
  have hnone : find_rule_by_type rulelist type = none ↔
      ∀ r ∈ rulelist, r.rr_type ≠ type := by
    rw [find_rule_by_type_none]
    constructor
    · intro h r hm he
      exact h r hm ((strcmp_eq_zero _ _ (hwf r hm) ht).mpr he)
    · intro h r hm h0
      exact h r hm ((strcmp_eq_zero _ _ (hwf r hm) ht).mp h0)
  refine ⟨hsome, ?_, hnone, ?_⟩
  · rintro ⟨r, hm, he⟩
    cases hf : find_rule_by_type rulelist type with
    | none => exact absurd he (hnone.mp hf r hm)
    | some q => exact ⟨q, rfl, (hsome q hf).2⟩
  · intro h
    exact hnone.mpr (fun r hm => (h r hm).2)

theorem find_rule_by_type_exact_witness :
    (∀ r ∈ registry_fs_ip_VM, isCStr r.rr_type) ∧ isCStr (cstr "vm") ∧
    (∀ r, find_rule_by_type registry_fs_ip_VM (cstr "vm") = some r →
      r ∈ registry_fs_ip_VM ∧ r.rr_type = cstr "vm") ∧
    ((∃ r ∈ registry_fs_ip_VM, r.rr_type = cstr "vm") →
      ∃ r, find_rule_by_type registry_fs_ip_VM (cstr "vm") = some r ∧
        r.rr_type = cstr "vm") ∧
    (find_rule_by_type registry_fs_ip_VM (cstr "vm") = none ↔
      ∀ r ∈ registry_fs_ip_VM, r.rr_type ≠ cstr "vm") ∧
    ((∀ r ∈ registry_fs_ip_VM,
        strcasecmp r.rr_type (cstr "vm") = 0 ∧ r.rr_type ≠ cstr "vm") →
      find_rule_by_type registry_fs_ip_VM (cstr "vm") = none) :=
  ⟨by decide, by decide,
   find_rule_by_type_exact registry_fs_ip_VM (cstr "vm") (by decide) (by decide)⟩

/-! ## Duration expressions -/

theorem atoi_digits_append (L : List Nat) (hL : ∀ d ∈ L, d < 10) (rest : CStr)
    (acc : Nat) :
    atoi_digits (L.reverse.map (· + 48) ++ rest) acc =
      atoi_digits rest (acc * 10 ^ L.length + Nat.ofDigits 10 L) := by
  induction L generalizing rest acc with
  | nil => simp [Nat.ofDigits]
  | cons d L ih =>
    have hd : d < 10 := hL d (List.mem_cons_self _ _)
    have hL2 : ∀ e ∈ L, e < 10 := fun e he => hL e (List.mem_cons_of_mem _ he)
    have hdig : isdigit (d + 48) = true := by
      simp only [isdigit, Bool.and_eq_true, decide_eq_true_eq]; omega
    simp only [List.reverse_cons, List.map_append, List.map_cons, List.map_nil,
      List.append_assoc, List.singleton_append, List.length_cons]
    rw [ih hL2, atoi_digits, if_pos hdig, Nat.ofDigits_cons]
    congr 1
    have : d + 48 - 48 = d := by omega
    rw [this, pow_succ]
    ring

theorem decimal_cons (n : Nat) (hn : 0 < n) :
    ∃ c cs, decimal n = c :: cs ∧ 48 ≤ c ∧ c ≤ 57 ∧
      48 ≤ (decimal n).getLastD 0 ∧ (decimal n).getLastD 0 ≤ 57 := by
  have hall : ∀ c ∈ decimal n, 48 ≤ c ∧ c ≤ 57 := by
    intro c hc
    simp only [decimal, List.mem_map, List.mem_reverse] at hc
    obtain ⟨d, hd, rfl⟩ := hc
    have := Nat.digits_lt_base (by norm_num : 1 < 10) hd
    omega
  have hne : decimal n ≠ [] := by
    simp only [decimal, ne_eq, List.map_eq_nil_iff, List.reverse_eq_nil_iff]
    exact Nat.digits_ne_nil_iff_ne_zero.mpr (by omega)
  cases hd : decimal n with
  | nil => exact absurd hd hne
  | cons c cs =>
    have h1 := hall c (by rw [hd]; exact List.mem_cons_self _ _)
    have h2 := hall ((c :: cs).getLast (by simp))
      (by rw [hd]; exact List.getLast_mem _)
    refine ⟨c, cs, rfl, h1.1, h1.2, ?_⟩
    rw [List.getLastD_eq_getLast?, List.getLast?_eq_getLast _ (by simp)]
    exact h2

theorem atoi_decimal (n : Nat) (hn : 0 < n) (hfit : (n : Int) ≤ INT_MAX)
    (rest : CStr) (hrest : ∀ c ∈ rest.head?, isdigit c = false) :
    atoi (decimal n ++ rest) = n := by
  obtain ⟨c, cs, hc, h48, h57, -⟩ := decimal_cons n hn
  have hval : atoi_digits (decimal n ++ rest) 0 = n := by
    have h := atoi_digits_append (Nat.digits 10 n)
      (fun d hd => Nat.digits_lt_base (by norm_num : 1 < 10) hd) rest 0
    have hr : atoi_digits rest n = n := by
      cases rest with
      | nil => rfl
      | cons r rs =>
        have := hrest r (by simp)
        simp [atoi_digits, this]
    simp only [zero_mul, zero_add, Nat.ofDigits_digits] at h
    rw [decimal, h, hr]
  have hsp : isspace c = false := by
    simp only [isspace, Bool.or_eq_false_iff, decide_eq_false_iff_not,
      Bool.and_eq_false_imp, decide_eq_true_eq]
    omega
  have hdw : (decimal n ++ rest).dropWhile isspace = decimal n ++ rest := by
    rw [hc, List.cons_append, List.dropWhile_cons, if_neg (by simp [hsp])]
  have hw : wrap32 (min (n : Int) LONG_MAX) = n := by
    unfold INT_MAX at hfit
    have hmin : min (n : Int) LONG_MAX = n := by
      apply min_eq_left; unfold LONG_MAX; omega
    rw [hmin]; unfold wrap32; omega
  unfold atoi
  rw [hdw]
  rw [hc, List.cons_append] at hval ⊢
  split
  · rename_i heq; simp only [List.cons.injEq] at heq; omega
  · rename_i heq; simp only [List.cons.injEq] at heq; omega
  · rw [hval]; exact hw

theorem wrap32_of_fit (v : Int) (h0 : 0 ≤ v) (h1 : v ≤ INT_MAX) : wrap32 v = v := by
  unfold INT_MAX at h1; unfold wrap32; omega

/-- C4, as amended: for a positive `n` that fits an `int`, written in decimal,
`expand_time` returns `n` for the digits alone, and returns `n * k` for the
digits followed by one unit letter of either case whenever `n * k` fits an
`int` too, `k` being the seconds of that unit. -/
theorem expand_time_decimal_units (n : Nat) (hn : 0 < n)
    (hfit : (n : Int) ≤ INT_MAX) :
    expand_time (decimal n) = n ∧
    ∀ (u : Nat) (k : Int), unit_seconds u = some k → (n : Int) * k ≤ INT_MAX →
      expand_time (decimal n ++ [u]) = n * k := by
  have hpos : ¬ ((n : Int) ≤ 0) := by omega
  constructor
  · obtain ⟨c, cs, -, -, -, h48, h57⟩ := decimal_cons n hn
    have ha := atoi_decimal n hn hfit [] (by simp)
    rw [List.append_nil] at ha
    unfold expand_time
    simp only [ha, hpos, if_false]
    rw [if_pos ⟨h48, h57⟩]
  · intro u k hu hk
    have hlast : (decimal n ++ [u]).getLastD 0 = u := by
      rw [List.getLastD_eq_getLast?]; simp
    have hnd : isdigit u = false := by
      unfold unit_seconds at hu
      simp only [isdigit, Bool.and_eq_false_imp, decide_eq_true_eq, decide_eq_false_iff_not]
      intro h48 h57
      split_ifs at hu <;> omega
    have ha := atoi_decimal n hn hfit [u] (by simpa using hnd)
    have hnn : (0 : Int) ≤ n := by omega
    unfold expand_time
    simp only [ha, hlast, hpos, if_false]
    unfold unit_seconds at hu
    split_ifs at hu with h1 h2 h3 h4 h5 h6 <;>
      simp only [Option.some.injEq] at hu <;> subst hu
    · rcases h1 with rfl | rfl <;> simp
    · rcases h2 with rfl | rfl <;> simp <;>
        exact wrap32_of_fit _ (by positivity) hk
    · rcases h3 with rfl | rfl <;> simp <;>
        exact wrap32_of_fit _ (by positivity) hk
    · rcases h4 with rfl | rfl <;> simp <;>
        exact wrap32_of_fit _ (by positivity) hk
    · rcases h5 with rfl | rfl <;> simp <;>
        exact wrap32_of_fit _ (by positivity) hk
    · rcases h6 with rfl | rfl <;> simp <;>
        exact wrap32_of_fit _ (by positivity) hk

theorem expand_time_decimal_units_witness :
    0 < 2 ∧ ((2 : Nat) : Int) ≤ INT_MAX ∧
    (expand_time (decimal 2) = (2 : Nat) ∧
    ∀ (u : Nat) (k : Int), unit_seconds u = some k →
      ((2 : Nat) : Int) * k ≤ INT_MAX →
      expand_time (decimal 2 ++ [u]) = (2 : Nat) * k) :=
  ⟨by decide, by decide, expand_time_decimal_units 2 (by decide) (by decide)⟩

/-- C4 fails as stated: 100 fits an `int` and `y` stands for 31536000 seconds,
but on "100y" the product does not fit an `int`; `expand_time` returns
-1141367296, not 100 × 31536000. -/
theorem expand_time_100y_overflows :
    decimal 100 ++ [121] = cstr "100y" ∧ ((100 : Nat) : Int) ≤ INT_MAX ∧
    unit_seconds 121 = some 31536000 ∧
    expand_time (cstr "100y") = -1141367296 ∧
    expand_time (decimal 100 ++ [121]) ≠ ((100 : Nat) : Int) * 31536000 := by
  have h : decimal 100 ++ [121] = cstr "100y" := by simp [decimal, cstr]
  refine ⟨h, by decide, by decide, by decide, ?_⟩
  rw [h]
  decide

/-- C5: for a non-empty string on which `atoi` gives a value ≤ 0,
`expand_time` returns 0, whatever the last byte is; this covers "abc" (no
leading digit), "0s" and "-5s". -/
theorem expand_time_nonpositive (val : CStr) (_hne : val ≠ []) (h : atoi val ≤ 0) :
    expand_time val = 0 ∧
    (atoi (cstr "abc") = 0 ∧ expand_time (cstr "abc") = 0) ∧
    (atoi (cstr "0s") = 0 ∧ expand_time (cstr "0s") = 0) ∧
    (atoi (cstr "-5s") = -5 ∧ expand_time (cstr "-5s") = 0) := by
  refine ⟨?_, by decide, by decide, by decide⟩
  unfold expand_time
  simp only [h, if_true]

theorem expand_time_nonpositive_witness :
    cstr "-12h" ≠ [] ∧ atoi (cstr "-12h") ≤ 0 ∧
    (expand_time (cstr "-12h") = 0 ∧
    (atoi (cstr "abc") = 0 ∧ expand_time (cstr "abc") = 0) ∧
    (atoi (cstr "0s") = 0 ∧ expand_time (cstr "0s") = 0) ∧
    (atoi (cstr "-5s") = -5 ∧ expand_time (cstr "-5s") = 0)) :=
  ⟨by decide, by decide,
   expand_time_nonpositive (cstr "-12h") (by decide) (by decide)⟩

/-! ## Attribute validation -/

theorem scanned_cons_some (p : xml_parameter) (rest : List xml_parameter)
    (n : CStr) (h : p.name = some n) : scanned (p :: rest) = p :: scanned rest := by
  simp [scanned, List.takeWhile, h]

theorem scanned_cons_none (p : xml_parameter) (rest : List xml_parameter)
    (h : p.name = none) : scanned (p :: rest) = [] := by
  simp [scanned, List.takeWhile, h]

theorem get_rule_attrs_loop_primary_found (ps : List xml_parameter)
    (attrs : List resource_attr_t)
    (h : ∃ p ∈ scanned ps, marker_true p.primary = true) :
    (_get_rule_attrs_loop ps true attrs).1 = -1 := by
  induction ps generalizing attrs with
  | nil => simp [scanned] at h
  | cons p rest ih =>
    cases hn : p.name with
    | none => rw [scanned_cons_none p rest hn] at h; simp at h
    | some n =>
      rw [scanned_cons_some p rest n hn] at h
      unfold _get_rule_attrs_loop
      simp only [hn]
      by_cases hp : marker_true p.primary = true
      · simp [hp]
      · have hrest : ∃ q ∈ scanned rest, marker_true q.primary = true := by
          obtain ⟨q, hq, hqt⟩ := h
          rcases List.mem_cons.mp hq with rfl | hq
          · exact absurd hqt hp
          · exact ⟨q, hq, hqt⟩
        simp only [Bool.not_eq_true] at hp
        simp only [hp, Bool.false_and, Bool.false_eq_true, if_false, Bool.or_false]
        split
        · split
          · rfl
          · exact ih _ hrest
        · exact ih _ hrest

theorem get_rule_attrs_loop_two_primary (ps : List xml_parameter)
    (primary_found : Bool) (attrs : List resource_attr_t)
    (h : 2 ≤ ((scanned ps).filter (fun p => marker_true p.primary)).length) :
    (_get_rule_attrs_loop ps primary_found attrs).1 = -1 := by
  induction ps generalizing primary_found attrs with
  | nil => simp [scanned] at h
  | cons p rest ih =>
    cases hn : p.name with
    | none => rw [scanned_cons_none p rest hn] at h; simp at h
    | some n =>
      rw [scanned_cons_some p rest n hn] at h
      unfold _get_rule_attrs_loop
      simp only [hn]
      by_cases hp : marker_true p.primary = true
      · rw [List.filter_cons_of_pos (by simpa using hp), List.length_cons] at h
        have hrest : ∃ q ∈ scanned rest, marker_true q.primary = true := by
          have hpos : 0 < ((scanned rest).filter
              (fun p => marker_true p.primary)).length := by omega
          obtain ⟨q, hq⟩ := List.exists_mem_of_length_pos hpos
          exact ⟨q, (List.mem_filter.mp hq).1, by simpa using (List.mem_filter.mp hq).2⟩
        cases primary_found with
        | true => simp [hp]
        | false =>
          simp only [hp, Bool.and_false, Bool.false_eq_true, if_false, if_true,
            Bool.or_true]
          split
          · split
            · rfl
            · exact get_rule_attrs_loop_primary_found rest _ hrest
          · exact get_rule_attrs_loop_primary_found rest _ hrest
      · rw [List.filter_cons_of_neg (by simpa using hp)] at h
        simp only [Bool.not_eq_true] at hp
        simp only [hp, Bool.false_and, Bool.false_eq_true, if_false, Bool.or_false]
        split
        · split
          · rfl
          · exact ih _ _ h
        · exact ih _ _ h

theorem load_block_of_attrs_fail (filename : CStr) (b : xml_agent)
    (rules : List resource_rule_t)
    (h : ∀ rr, (_get_rule_attrs b.parameters rr).1 = -1) :
    (load_block filename b rules).2 = rules := by
  unfold load_block
  split
  · rfl
  · split
    · rfl
    · simp [h]

/-- C6, as amended: when two or more of the parameter blocks that the loop
reaches (those before the first block without a name) carry a true primary
marker, `_get_rule_attrs` returns -1 and `load_resource_rulefile` discards the
rule: the rule list after the pass over that block is the one before it. -/
theorem two_primary_rule_discarded (b : xml_agent)
    (h : 2 ≤ ((scanned b.parameters).filter
      (fun p => marker_true p.primary)).length) :
    (∀ rr, (_get_rule_attrs b.parameters rr).1 = -1) ∧
    (∀ filename rules, (load_block filename b rules).2 = rules) ∧
    (∀ filename rules,
      load_resource_rulefile filename (some [b]) rules = (0, rules)) := by
  have h1 : ∀ rr, (_get_rule_attrs b.parameters rr).1 = -1 := by
    intro rr
    unfold _get_rule_attrs
    exact get_rule_attrs_loop_two_primary _ _ _ h
  have h2 : ∀ filename rules, (load_block filename b rules).2 = rules :=
    fun filename rules => load_block_of_attrs_fail filename b rules h1
  refine ⟨h1, h2, ?_⟩
  intro filename rules
  simp only [load_resource_rulefile, load_loop]
  split <;> rw [h2]

theorem two_primary_rule_discarded_witness :
    2 ≤ ((scanned agent_two_primary.parameters).filter
      (fun p => marker_true p.primary)).length ∧
    ((∀ rr, (_get_rule_attrs agent_two_primary.parameters rr).1 = -1) ∧
    (∀ filename rules, (load_block filename agent_two_primary rules).2 = rules) ∧
    (∀ filename rules,
      load_resource_rulefile filename (some [agent_two_primary]) rules
        = (0, rules))) :=
  ⟨by decide, two_primary_rule_discarded agent_two_primary (by decide)⟩

/-- C6 fails as stated: the block `agent_primary_after_gap` has two parameters
marked primary, the second one after a parameter block without a name, where
the loop has already ended; `_get_rule_attrs` returns 0 and the rule is
stored. -/
theorem two_primary_after_gap_stored :
    2 ≤ (agent_primary_after_gap.parameters.filter
      (fun p => marker_true p.primary)).length ∧
    (_get_rule_attrs agent_primary_after_gap.parameters
      (build_rule (cstr "/a/fs.sh") (cstr "fs") agent_primary_after_gap)).1 = 0 ∧
    ((load_resource_rulefile (cstr "/a/fs.sh")
      (some [agent_primary_after_gap]) []).2.map (fun r => r.rr_type))
      = [cstr "fs"] := by
  decide

theorem marker_flag_eq (marker : Option CStr) (bit flags : Nat) :
    marker_flag marker bit flags =
      if marker_true marker then flags ||| bit else flags := by
  cases marker with
  | none => simp [marker_flag, marker_true]
  | some ret => simp [marker_flag, marker_true]

theorem get_rule_attrs_loop_conflict (ps : List xml_parameter)
    (primary_found : Bool) (attrs : List resource_attr_t)
    (h : ∃ p ∈ scanned ps, inherit_conflict p = true) :
    (_get_rule_attrs_loop ps primary_found attrs).1 = -1 := by
  induction ps generalizing primary_found attrs with
  | nil => simp [scanned] at h
  | cons p rest ih =>
    cases hn : p.name with
    | none => rw [scanned_cons_none p rest hn] at h; simp at h
    | some n =>
      rw [scanned_cons_some p rest n hn] at h
      unfold _get_rule_attrs_loop
      simp only [hn]
      split
      · rfl
      · by_cases hc : inherit_conflict p = true
        · unfold inherit_conflict at hc
          simp only [Bool.and_eq_true, Bool.or_eq_true, Option.isSome_iff_exists] at hc
          obtain ⟨⟨e, he⟩, hm⟩ := hc
          simp only [he, marker_flag_eq]
          rw [if_pos]
          revert hm
          cases marker_true p.required <;> cases marker_true p.unique <;>
            cases marker_true p.primary <;> decide
        · have hrest : ∃ q ∈ scanned rest, inherit_conflict q = true := by
            obtain ⟨q, hq, hqt⟩ := h
            rcases List.mem_cons.mp hq with rfl | hq
            · exact absurd hqt hc
            · exact ⟨q, hq, hqt⟩
          cases hi : p.inherit with
          | none => exact ih _ _ hrest
          | some e =>
            dsimp only
            split_ifs <;> first | rfl | exact ih _ _ hrest

/-- C7, as amended: when one of the parameter blocks that the loop reaches
(those before the first block without a name) declares `inherit` together with
a true `required`, `unique` or `primary` marker, `_get_rule_attrs` returns -1
and `load_resource_rulefile` discards the rule: the rule list after the pass
over that block is the one before it. -/
theorem inherit_conflict_rule_discarded (b : xml_agent)
    (h : ∃ p ∈ scanned b.parameters, inherit_conflict p = true) :
    (∀ rr, (_get_rule_attrs b.parameters rr).1 = -1) ∧
    (∀ filename rules, (load_block filename b rules).2 = rules) ∧
    (∀ filename rules,
      load_resource_rulefile filename (some [b]) rules = (0, rules)) := by
  have h1 : ∀ rr, (_get_rule_attrs b.parameters rr).1 = -1 := by
    intro rr
    unfold _get_rule_attrs
    exact get_rule_attrs_loop_conflict _ _ _ h
  have h2 : ∀ filename rules, (load_block filename b rules).2 = rules :=
    fun filename rules => load_block_of_attrs_fail filename b rules h1
  refine ⟨h1, h2, ?_⟩
  intro filename rules
  simp only [load_resource_rulefile, load_loop]
  split <;> rw [h2]

theorem inherit_conflict_rule_discarded_witness :
    (∃ p ∈ scanned agent_inherit_required.parameters, inherit_conflict p = true) ∧
    ((∀ rr, (_get_rule_attrs agent_inherit_required.parameters rr).1 = -1) ∧
    (∀ filename rules,
      (load_block filename agent_inherit_required rules).2 = rules) ∧
    (∀ filename rules,
      load_resource_rulefile filename (some [agent_inherit_required]) rules
        = (0, rules))) :=
  ⟨by decide, inherit_conflict_rule_discarded agent_inherit_required (by decide)⟩

/-- C7 fails as stated: the block `agent_conflict_after_gap` has a parameter
declaring `inherit` together with `required="1"`, placed after a parameter
block without a name, where the loop has already ended; `_get_rule_attrs`
returns 0 and the rule is stored. -/
theorem inherit_conflict_after_gap_stored :
    (∃ p ∈ agent_conflict_after_gap.parameters, inherit_conflict p = true) ∧
    (_get_rule_attrs agent_conflict_after_gap.parameters
      (build_rule (cstr "/a/fs.sh") (cstr "fs") agent_conflict_after_gap)).1 = 0 ∧
    ((load_resource_rulefile (cstr "/a/fs.sh")
      (some [agent_conflict_after_gap]) []).2.map (fun r => r.rr_type))
      = [cstr "fs"] := by
  decide

/-! ## Stored attribute values -/

theorem store_attribute_perm (attrs : List resource_attr_t) (name : CStr)
    (value : Option CStr) (flags : Nat) :
    (store_attribute attrs (some name) value flags).2.Perm
      (attrs ++ [⟨name, value, flags⟩]) := by
  unfold store_attribute
  cases attrs with
  | nil => exact List.Perm.refl _
  | cons first rest =>
    dsimp only
    split_ifs
    · have h1 : ((⟨name, value, flags⟩ : resource_attr_t) :: rest ++ [first]).Perm
          (first :: ⟨name, value, flags⟩ :: rest) :=
        List.perm_append_singleton first (⟨name, value, flags⟩ :: rest)
      have h2 : (first :: rest ++ [(⟨name, value, flags⟩ : resource_attr_t)]).Perm
          (first :: ⟨name, value, flags⟩ :: rest) := by
        rw [List.cons_append]
        exact List.Perm.cons first (List.perm_append_singleton _ rest)
      exact h1.trans h2.symm
    · exact List.Perm.refl _

theorem get_rule_attrs_loop_cons (p : xml_parameter) (rest : List xml_parameter)
    (primary_found : Bool) (attrs : List resource_attr_t) (n : CStr)
    (hn : p.name = some n) :
    _get_rule_attrs_loop (p :: rest) primary_found attrs =
      if marker_true p.primary && primary_found then (-1, attrs)
      else if inherit_conflict p then (-1, attrs)
      else _get_rule_attrs_loop rest (primary_found || marker_true p.primary)
        (store_attribute attrs (some n) (stored_attr p).ra_value
          (stored_attr p).ra_flags).2 := by
  conv_lhs => rw [_get_rule_attrs_loop]
  simp only [hn, marker_flag_eq, inherit_conflict, stored_attr]
  cases p.inherit <;> cases marker_true p.required <;> cases marker_true p.unique <;>
    cases marker_true p.primary <;> cases primary_found <;>
    simp [RA_REQUIRED, RA_UNIQUE, RA_PRIMARY, RA_INHERIT,
      (by decide : (8 : Nat) &&& 7 = 0)]

theorem get_rule_attrs_loop_perm (ps : List xml_parameter) (primary_found : Bool)
    (attrs : List resource_attr_t)
    (hok : (_get_rule_attrs_loop ps primary_found attrs).1 = 0) :
    (_get_rule_attrs_loop ps primary_found attrs).2.Perm
      (attrs ++ (scanned ps).map stored_attr) ∧
    ∀ p ∈ scanned ps, inherit_conflict p = false := by
  induction ps generalizing primary_found attrs with
  | nil => simp [_get_rule_attrs_loop, scanned]
  | cons p rest ih =>
    cases hn : p.name with
    | none =>
      rw [scanned_cons_none p rest hn]
      simp [_get_rule_attrs_loop, hn]
    | some n =>
      rw [scanned_cons_some p rest n hn]
      rw [get_rule_attrs_loop_cons p rest primary_found attrs n hn] at hok ⊢
      by_cases h1 : (marker_true p.primary && primary_found) = true
      · rw [if_pos h1] at hok; simp at hok
      · rw [if_neg h1] at hok ⊢
        by_cases h2 : inherit_conflict p = true
        · rw [if_pos h2] at hok; simp at hok
        · rw [if_neg h2] at hok ⊢
          obtain ⟨ih1, ih2⟩ := ih _ _ hok
          have hattr : (⟨n, (stored_attr p).ra_value, (stored_attr p).ra_flags⟩ :
              resource_attr_t) = stored_attr p := by
            simp [stored_attr, hn]
          refine ⟨?_, ?_⟩
          · refine ih1.trans ?_
            refine ((store_attribute_perm attrs n _ _).append_right _).trans ?_
            rw [hattr, List.map_cons]
            simp
          · intro q hq
            rcases List.mem_cons.mp hq with rfl | hq
            · simpa using h2
            · exact ih2 q hq

theorem stored_attr_inherit (p : xml_parameter) (n e : CStr) (hn : p.name = some n)
    (hi : p.inherit = some e) (hc : inherit_conflict p = false) :
    stored_attr p = ⟨n, some e, RA_INHERIT⟩ := by
  simp only [inherit_conflict, hi, Option.isSome_some, Bool.true_and,
    Bool.or_eq_false_iff] at hc
  simp [stored_attr, hn, hi, hc.1.1, hc.1.2, hc.2]

theorem stored_attr_plain (p : xml_parameter) (n : CStr) (hn : p.name = some n)
    (hi : p.inherit = none) :
    (stored_attr p).ra_name = n ∧ (stored_attr p).ra_value = p.content_default ∧
    (stored_attr p).ra_flags &&& RA_INHERIT = 0 := by
  simp only [stored_attr, hn, hi, Option.getD_some, Option.isSome_none, true_and]
  cases marker_true p.required <;> cases marker_true p.unique <;>
    cases marker_true p.primary <;> decide

theorem scanned_named (ps : List xml_parameter) (p : xml_parameter)
    (hp : p ∈ scanned ps) : ∃ n, p.name = some n := by
  have h := List.mem_takeWhile_imp hp
  exact Option.isSome_iff_exists.mp h

/-- C8: when `_get_rule_attrs` succeeds, the attribute array afterwards holds
the attributes it held before plus exactly one attribute per parameter block
read.  A parameter declaring `inherit` is stored with the inherit flag and the
inherit expression as value, whether or not a default is present, and the
default is stored nowhere; a parameter without `inherit` is stored with its
default as value (absent when there is none) and without the inherit flag. -/
theorem get_rule_attrs_inherit_value (ps : List xml_parameter) (rr : resource_rule_t)
    (hok : (_get_rule_attrs ps rr).1 = 0) :
    (_get_rule_attrs ps rr).2.rr_attrs.Perm
      (rr.rr_attrs ++ (scanned ps).map stored_attr) ∧
    (∀ p ∈ scanned ps, ∀ e, p.inherit = some e →
      ∃ n, p.name = some n ∧
        (⟨n, some e, RA_INHERIT⟩ : resource_attr_t) ∈ (_get_rule_attrs ps rr).2.rr_attrs) ∧
    (∀ p ∈ scanned ps, p.inherit = none →
      ∃ a ∈ (_get_rule_attrs ps rr).2.rr_attrs, p.name = some a.ra_name ∧
        a.ra_value = p.content_default ∧ a.ra_flags &&& RA_INHERIT = 0) ∧
    (∀ a ∈ (_get_rule_attrs ps rr).2.rr_attrs, a ∈ rr.rr_attrs ∨
      ∃ p ∈ scanned ps, p.name = some a.ra_name ∧
        (∀ e, p.inherit = some e → a.ra_value = some e ∧ a.ra_flags = RA_INHERIT) ∧
        (p.inherit = none →
          a.ra_value = p.content_default ∧ a.ra_flags &&& RA_INHERIT = 0)) := by
  unfold _get_rule_attrs at hok ⊢
  obtain ⟨hperm, hnc⟩ := get_rule_attrs_loop_perm ps false rr.rr_attrs hok
  have hmem : ∀ p ∈ scanned ps,
      stored_attr p ∈ (_get_rule_attrs_loop ps false rr.rr_attrs).2 := by
    intro p hp
    refine hperm.symm.subset ?_
    exact List.mem_append_right _ (List.mem_map_of_mem _ hp)
  refine ⟨hperm, ?_, ?_, ?_⟩
  · intro p hp e he
    obtain ⟨n, hn⟩ := scanned_named ps p hp
    refine ⟨n, hn, ?_⟩
    rw [← stored_attr_inherit p n e hn he (hnc p hp)]
    exact hmem p hp
  · intro p hp hi
    obtain ⟨n, hn⟩ := scanned_named ps p hp
    obtain ⟨h1, h2, h3⟩ := stored_attr_plain p n hn hi
    exact ⟨stored_attr p, hmem p hp, by rw [h1, hn], h2, h3⟩
  · intro a ha
    rcases List.mem_append.mp (hperm.subset ha) with h | h
    · exact Or.inl h
    · right
      obtain ⟨p, hp, rfl⟩ := List.mem_map.mp h
      obtain ⟨n, hn⟩ := scanned_named ps p hp
      refine ⟨p, hp, ?_, ?_, ?_⟩
      · simp [stored_attr, hn]
      · intro e he
        rw [stored_attr_inherit p n e hn he (hnc p hp)]
        exact ⟨rfl, rfl⟩
      · intro hi
        exact (stored_attr_plain p n hn hi).2

theorem get_rule_attrs_inherit_value_witness :
    (_get_rule_attrs params_user_path_mode (bare_rule (cstr "fs"))).1 = 0 ∧
    ((_get_rule_attrs params_user_path_mode (bare_rule (cstr "fs"))).2.rr_attrs.Perm
      ((bare_rule (cstr "fs")).rr_attrs ++
        (scanned params_user_path_mode).map stored_attr) ∧
    (∀ p ∈ scanned params_user_path_mode, ∀ e, p.inherit = some e →
      ∃ n, p.name = some n ∧ (⟨n, some e, RA_INHERIT⟩ : resource_attr_t) ∈
        (_get_rule_attrs params_user_path_mode (bare_rule (cstr "fs"))).2.rr_attrs) ∧
    (∀ p ∈ scanned params_user_path_mode, p.inherit = none →
      ∃ a ∈ (_get_rule_attrs params_user_path_mode (bare_rule (cstr "fs"))).2.rr_attrs,
        p.name = some a.ra_name ∧
        a.ra_value = p.content_default ∧ a.ra_flags &&& RA_INHERIT = 0) ∧
    (∀ a ∈ (_get_rule_attrs params_user_path_mode (bare_rule (cstr "fs"))).2.rr_attrs,
      a ∈ (bare_rule (cstr "fs")).rr_attrs ∨
      ∃ p ∈ scanned params_user_path_mode, p.name = some a.ra_name ∧
        (∀ e, p.inherit = some e → a.ra_value = some e ∧ a.ra_flags = RA_INHERIT) ∧
        (p.inherit = none →
          a.ra_value = p.content_default ∧ a.ra_flags &&& RA_INHERIT = 0))) :=
  ⟨by decide,
   get_rule_attrs_inherit_value params_user_path_mode (bare_rule (cstr "fs"))
     (by decide)⟩

/-! ## Actions -/

theorem action_replace_name_depth (name : CStr) (depth timeout interval : Int)
    (a : resource_act_t) :
    (action_replace name depth timeout interval a).ra_name = a.ra_name ∧
    (action_replace name depth timeout interval a).ra_depth = a.ra_depth := by
  unfold action_replace
  split <;> exact ⟨rfl, rfl⟩

theorem action_args_nonneg (act : CStr) (a : xml_action) :
    0 ≤ (action_args act a).1 ∧ 0 ≤ (action_args act a).2.1 ∧
    0 ≤ (action_args act a).2.2 := by
  unfold action_args
  refine ⟨?_, ?_, ?_⟩
  · dsimp only
    split
    · split
      · split <;> omega
      · exact le_refl _
    · exact le_refl _
  · dsimp only
    split
    · split <;> omega
    · exact le_refl _
  · dsimp only
    split
    · split <;> omega
    · exact le_refl _

/-- C9: when the array holds at index `i` an entry `e`, storing an action with
the name of `e` and with the depth of `e` (or depth -1) leaves the number of
entries unchanged, keeps the name and depth of every entry, and, for a
non-negative timeout and interval, makes the entry at `i` carry exactly that
timeout and interval (a negative one leaves the old value).  The depth,
timeout and interval that `_get_actions` passes on are never negative. -/
theorem store_action_same_slot (acts : List resource_act_t) (i : Nat)
    (e : resource_act_t) (hi : acts[i]? = some e) (depth timeout interval : Int)
    (hd : depth = e.ra_depth ∨ depth = -1) :
    (store_action acts (some e.ra_name) depth timeout interval).2.length
      = acts.length ∧
    (∀ (j : Nat) (a : resource_act_t), acts[j]? = some a →
      ∃ a2 : resource_act_t, (store_action acts (some e.ra_name) depth timeout interval).2[j]? = some a2 ∧
        a2.ra_name = a.ra_name ∧ a2.ra_depth = a.ra_depth) ∧
    (0 ≤ timeout → 0 ≤ interval →
      (store_action acts (some e.ra_name) depth timeout interval).2[i]?
        = some ⟨e.ra_name, e.ra_depth, timeout, interval⟩) ∧
    (¬ (depth < 0 ∧ timeout < 0 ∧ interval < 0) →
      (store_action acts (some e.ra_name) depth timeout interval).2[i]?
        = some ⟨e.ra_name, e.ra_depth,
            if 0 ≤ timeout then timeout else e.ra_timeout,
            if 0 ≤ interval then interval else e.ra_interval⟩) ∧
    (∀ act a, 0 ≤ (action_args act a).1 ∧ 0 ≤ (action_args act a).2.1 ∧
      0 ≤ (action_args act a).2.2) := by
  have hmatch : action_matches e.ra_name depth e = true := by
    simp only [action_matches, strcmp_self, decide_True, Bool.true_and,
      Bool.or_eq_true, decide_eq_true_eq]
    exact hd
  have hmem : e ∈ acts := List.getElem?_mem hi
  have hany : acts.any (action_matches e.ra_name depth) = true :=
    List.any_eq_true.mpr ⟨e, hmem, hmatch⟩
  refine ⟨?_, ?_, ?_, ?_, action_args_nonneg⟩
  all_goals
    unfold store_action
    dsimp only
    by_cases hearly : depth < 0 ∧ timeout < 0 ∧ interval < 0
  · rw [if_pos hearly]
  · rw [if_neg hearly]
    cases acts with
    | nil => simp at hi
    | cons x xs => simp only [hany, if_true, List.length_map]
  · rw [if_pos hearly]
    intro j a hj
    exact ⟨a, hj, rfl, rfl⟩
  · rw [if_neg hearly]
    cases acts with
    | nil => simp at hi
    | cons x xs =>
      simp only [hany, if_true]
      intro j a hj
      refine ⟨action_replace e.ra_name depth timeout interval a, ?_, ?_⟩
      · rw [List.getElem?_map, hj]; rfl
      · exact action_replace_name_depth _ _ _ _ a
  · intro ht _
    exact absurd hearly.2.1 (by omega)
  · rw [if_neg hearly]
    intro ht hiv
    cases acts with
    | nil => simp at hi
    | cons x xs =>
      simp only [hany, if_true]
      rw [List.getElem?_map, hi]
      simp [action_replace, hmatch, ht, hiv]
  · intro h; exact absurd hearly h
  · rw [if_neg hearly]
    intro _
    cases acts with
    | nil => simp at hi
    | cons x xs =>
      simp only [hany, if_true]
      rw [List.getElem?_map, hi]
      simp [action_replace, hmatch]

theorem store_action_same_slot_witness :
    acts_start_monitor[1]? = some ⟨cstr "monitor", 10, 20, 60⟩ ∧
    ((-1 : Int) = (⟨cstr "monitor", 10, 20, 60⟩ : resource_act_t).ra_depth ∨
      (-1 : Int) = -1) ∧
    ((store_action acts_start_monitor (some (cstr "monitor")) (-1) 5 7).2.length
      = acts_start_monitor.length ∧
    (∀ (j : Nat) (a : resource_act_t), acts_start_monitor[j]? = some a →
      ∃ a2 : resource_act_t, (store_action acts_start_monitor (some (cstr "monitor")) (-1) 5 7).2[j]?
          = some a2 ∧
        a2.ra_name = a.ra_name ∧ a2.ra_depth = a.ra_depth) ∧
    ((0 : Int) ≤ 5 → (0 : Int) ≤ 7 →
      (store_action acts_start_monitor (some (cstr "monitor")) (-1) 5 7).2[1]?
        = some ⟨cstr "monitor", 10, 5, 7⟩) ∧
    (¬ ((-1 : Int) < 0 ∧ (5 : Int) < 0 ∧ (7 : Int) < 0) →
      (store_action acts_start_monitor (some (cstr "monitor")) (-1) 5 7).2[1]?
        = some ⟨cstr "monitor", 10,
            if (0 : Int) ≤ 5 then 5 else 20, if (0 : Int) ≤ 7 then 7 else 60⟩) ∧
    (∀ act a, 0 ≤ (action_args act a).1 ∧ 0 ≤ (action_args act a).2.1 ∧
      0 ≤ (action_args act a).2.2)) :=
  ⟨by decide, by decide,
   store_action_same_slot acts_start_monitor 1 ⟨cstr "monitor", 10, 20, 60⟩
     (by decide) (-1) 5 7 (by decide)⟩

/-! ## The reserved type name -/

theorem store_rule_mem (rulelist : List resource_rule_t) (newrule r : resource_rule_t)
    (h : r ∈ (store_rule rulelist newrule).2) : r ∈ rulelist ∨ r = newrule := by
  unfold store_rule at h
  split at h
  · exact Or.inl h
  · rcases List.mem_cons.mp ((insert_sorted_perm newrule rulelist).subset h) with h | h
    · exact Or.inr h
    · exact Or.inl h

theorem get_rule_attrs_type (ps : List xml_parameter) (rr : resource_rule_t) :
    (_get_rule_attrs ps rr).2.rr_type = rr.rr_type := rfl

theorem build_rule_type (filename type : CStr) (b : xml_agent) :
    (build_rule filename type b).rr_type = type := by
  unfold build_rule _get_actions _get_childtypes _get_maxparents _get_version
  cases b.version <;> cases b.maxinstances <;> rfl

theorem load_block_not_reserved (filename : CStr) (b : xml_agent)
    (rules : List resource_rule_t)
    (h : ∀ r ∈ rules, strcasecmp r.rr_type (cstr "action") ≠ 0) :
    ∀ r ∈ (load_block filename b rules).2,
      strcasecmp r.rr_type (cstr "action") ≠ 0 := by
  unfold load_block
  split
  · exact h
  · rename_i type _
    split
    · exact h
    · rename_i hres
      dsimp only
      split
      · exact h
      · split
        · exact h
        · intro r hr
          rcases store_rule_mem _ _ r hr with hr | rfl
          · exact h r hr
          · rw [get_rule_attrs_type, build_rule_type]
            exact hres

theorem load_loop_not_reserved (filename : CStr) (blocks : List xml_agent)
    (rules : List resource_rule_t)
    (h : ∀ r ∈ rules, strcasecmp r.rr_type (cstr "action") ≠ 0) :
    ∀ r ∈ load_loop filename blocks rules,
      strcasecmp r.rr_type (cstr "action") ≠ 0 := by
  induction blocks generalizing rules with
  | nil => exact h
  | cons b rest ih =>
    unfold load_loop
    dsimp only
    split
    · exact ih _ (load_block_not_reserved filename b rules h)
    · exact load_block_not_reserved filename b rules h

/-- C10: when no rule of the starting list is named "action" in any letter
case, no rule of the list after `load_resource_rulefile` is, whatever the
document: a block declaring the reserved name is never stored. -/
theorem load_resource_rulefile_never_stores_action (filename : CStr)
    (doc : Option (List xml_agent)) (rules : List resource_rule_t)
    (h : ∀ r ∈ rules, strcasecmp r.rr_type (cstr "action") ≠ 0) :
    ∀ r ∈ (load_resource_rulefile filename doc rules).2,
      strcasecmp r.rr_type (cstr "action") ≠ 0 := by
  unfold load_resource_rulefile
  cases doc with
  | none => exact h
  | some blocks => exact load_loop_not_reserved filename blocks rules h

theorem load_resource_rulefile_never_stores_action_witness :
    (∀ r ∈ registry_fs_ip_VM, strcasecmp r.rr_type (cstr "action") ≠ 0) ∧
    ∀ r ∈ (load_resource_rulefile (cstr "/a/x.sh") (some doc_nfs_Action_lvm)
        registry_fs_ip_VM).2,
      strcasecmp r.rr_type (cstr "action") ≠ 0 :=
  ⟨by decide,
   load_resource_rulefile_never_stores_action (cstr "/a/x.sh")
     (some doc_nfs_Action_lvm) registry_fs_ip_VM (by decide)⟩

/-! ## Scanning a document -/

theorem load_loop_skip_at (filename : CStr) (pre : List xml_agent) (b : xml_agent)
    (post : List xml_agent)
    (hb : ∀ rules, load_block filename b rules = (true, rules)) :
    ∀ rules, load_loop filename (pre ++ b :: post) rules
      = load_loop filename (pre ++ post) rules := by
  induction pre with
  | nil => intro rules; simp [load_loop, hb]
  | cons p ps ih =>
    intro rules
    simp only [List.cons_append, load_loop]
    split
    · exact ih _
    · rfl

theorem load_block_attrs_fail (filename : CStr) (b : xml_agent) (type : CStr)
    (hn : b.name = some type) (hr : strcasecmp type (cstr "action") ≠ 0)
    (hf : (_get_rule_attrs b.parameters (build_rule filename type b)).1 < 0)
    (rules : List resource_rule_t) :
    load_block filename b rules = (true, rules) := by
  simp [load_block, hn, hr, hf]

/-- C12: when the pass over a block gets as far as attribute validation (the
block has a type name, other than the reserved one) and `_get_rule_attrs`
returns a failure there, as it does for a duplicate primary and for `inherit`
combined with a true `required`, `unique` or `primary`,
`load_resource_rulefile` drops that block only and goes on: the result is the
one obtained from the same document without that block, and the call returns
0. -/
theorem failed_validation_skips_block (filename : CStr) (pre : List xml_agent)
    (b : xml_agent) (post : List xml_agent) (type : CStr)
    (hn : b.name = some type) (hr : strcasecmp type (cstr "action") ≠ 0)
    (hf : (_get_rule_attrs b.parameters (build_rule filename type b)).1 < 0)
    (rules : List resource_rule_t) :
    load_resource_rulefile filename (some (pre ++ b :: post)) rules
      = load_resource_rulefile filename (some (pre ++ post)) rules ∧
    (load_resource_rulefile filename (some (pre ++ b :: post)) rules).1 = 0 := by
  refine ⟨?_, rfl⟩
  simp only [load_resource_rulefile]
  rw [load_loop_skip_at filename pre b post
    (load_block_attrs_fail filename b type hn hr hf) rules]

theorem failed_validation_skips_block_witness :
    agent_two_primary.name = some (cstr "fs") ∧
    strcasecmp (cstr "fs") (cstr "action") ≠ 0 ∧
    (_get_rule_attrs agent_two_primary.parameters
      (build_rule (cstr "/a/x.sh") (cstr "fs") agent_two_primary)).1 < 0 ∧
    (_get_rule_attrs agent_inherit_required.parameters
      (build_rule (cstr "/a/x.sh") (cstr "fs") agent_inherit_required)).1 < 0 ∧
    (load_resource_rulefile (cstr "/a/x.sh")
        (some ([bare_agent "nfs"] ++ agent_two_primary :: [bare_agent "lvm"])) []
      = load_resource_rulefile (cstr "/a/x.sh")
        (some ([bare_agent "nfs"] ++ [bare_agent "lvm"])) [] ∧
    (load_resource_rulefile (cstr "/a/x.sh")
        (some ([bare_agent "nfs"] ++ agent_two_primary :: [bare_agent "lvm"])) []).1
      = 0) :=
  ⟨by decide, by decide, by decide, by decide,
   failed_validation_skips_block (cstr "/a/x.sh") [bare_agent "nfs"] agent_two_primary
     [bare_agent "lvm"] (cstr "fs") (by decide) (by decide) (by decide) []⟩

/-! ## Version and pipe capture -/

/-- C13 on the code: `_get_version` leaves `rr_version` NULL whatever the block
reports, and the rule stored for the block `agent_fs_version`, which reports
version "1.1", has no version. -/
theorem get_version_always_null :
    (∀ (version : Option CStr) (rr : resource_rule_t),
      (_get_version version rr).rr_version = none) ∧
    agent_fs_version.version = some (cstr "1.1") ∧
    (_get_version agent_fs_version.version (bare_rule (cstr "fs"))).rr_version = none ∧
    ((load_resource_rulefile (cstr "/a/fs.sh") (some [agent_fs_version]) []).2.map
      (fun r => (r.rr_type, r.rr_version))) = [(cstr "fs", none)] := by
  refine ⟨fun version rr => rfl, by decide, by decide, by decide⟩

/-- C14 on the code: on a pipe that delivers "<a>", then "</a>", then the end of
the stream, `read_pipe` returns 0 after the first read with the buffer "<a>"
plus the NUL and length 4; the four bytes of the second read are not in the
buffer.  When the first read reports the end of the stream it returns 0 with
no buffer and length 0. -/
theorem read_pipe_stops_at_short_read :
    read_pipe reads_two_short = (0, some (cstr "<a>" ++ [0]), 4) ∧
    read_pipe reads_two_short ≠ (0, some (cstr "<a>" ++ cstr "</a>" ++ [0]), 8) ∧
    read_pipe [read_result.data []] = (0, none, 0) ∧
    read_pipe [] = (0, none, 0) := by
  decide

/-! ## End to end -/

theorem params_vm_attrs (dflt : Option CStr) (name_first : Bool) :
    _get_rule_attrs_loop (params_vm dflt name_first) false []
      = (0, [⟨cstr "name", none, 5⟩, ⟨cstr "domain", dflt, 0⟩]) := by
  have ht : truthy (cstr "1") = true := by decide
  cases name_first <;>
    simp [params_vm, plain_param, _get_rule_attrs_loop, marker_flag, marker_true, ht,
      store_attribute, RA_REQUIRED, RA_PRIMARY, RA_UNIQUE, RA_INHERIT,
      (by decide : (4 ||| 1 : Nat) = 5)]

/-- C15: for the "vm" document of the end-to-end example (parameter "name"
marked primary and required, parameter "domain" with a default and no marker,
in either order; action "monitor" with interval "30s" and depth "1"; child
"service" with forbid set), `load_resource_rulefile` on the empty list returns
0 and stores exactly one rule, of type "vm": its attribute at index 0 is "name"
with the primary and the required flag, its action array is the one entry
"monitor" with interval 30 and depth 1, and its child array is the one entry
"service" with forbid set. -/
theorem load_vm_end_to_end (filename : CStr) (dflt : Option CStr) (name_first : Bool) :
    load_resource_rulefile filename (some [agent_vm dflt name_first]) [] =
      (0, [⟨cstr "vm", some filename, none, 0,
        [⟨cstr "name", none, RA_PRIMARY ||| RA_REQUIRED⟩, ⟨cstr "domain", dflt, 0⟩],
        [⟨cstr "monitor", 1, 0, 30⟩],
        [⟨cstr "service", 0, 0, 1, 0⟩]⟩]) ∧
    (RA_PRIMARY ||| RA_REQUIRED) &&& RA_PRIMARY ≠ 0 ∧
    (RA_PRIMARY ||| RA_REQUIRED) &&& RA_REQUIRED ≠ 0 := by
  have hname : strcasecmp (cstr "vm") (cstr "action") ≠ 0 := by decide
  have hch : _get_childtypes_loop
      [⟨some (cstr "service"), none, none, some (cstr "1")⟩] []
      = [⟨cstr "service", 0, 0, 1, 0⟩] := by decide
  have hact : _get_actions_loop
      [⟨some (cstr "monitor"), none, some (cstr "30s"), some (cstr "1")⟩] []
      = [⟨cstr "monitor", 1, 0, 30⟩] := by decide
  have hflags : RA_PRIMARY ||| RA_REQUIRED = 5 := by decide
  refine ⟨?_, by decide, by decide⟩
  rw [hflags]
  simp only [load_resource_rulefile, load_loop, load_block]
  simp [agent_vm, hname, build_rule, _get_version, _get_maxparents, _get_childtypes,
    _get_actions, hch, hact, _get_rule_attrs, store_rule, insert_sorted, params_vm_attrs]

/-! ## Return value of `store_action`, and the two comparisons of the registry -/

/-- C16 on the code: storing "monitor" at depth 10 into an array that already
holds "monitor" at depth 10 updates that entry in place and returns 1, not 0;
in general `store_action` returns one of 0, 1 and -1, and it returns 1 exactly
when the action has a name, not all of depth, timeout and interval are
negative, and an entry of the array matches. -/
theorem store_action_returns_one_on_replace :
    acts_start_monitor[1]? = some ⟨cstr "monitor", 10, 20, 60⟩ ∧
    store_action acts_start_monitor (some (cstr "monitor")) 10 5 7 =
      (1, [⟨cstr "start", 0, 30, 0⟩, ⟨cstr "monitor", 10, 5, 7⟩,
           ⟨cstr "monitor", 20, 40, 300⟩]) ∧
    (∀ (acts : List resource_act_t) (name : Option CStr) (depth timeout interval : Int),
      (store_action acts name depth timeout interval).1 = 0 ∨
      (store_action acts name depth timeout interval).1 = 1 ∨
      (store_action acts name depth timeout interval).1 = -1) ∧
    (∀ (acts : List resource_act_t) (name : CStr) (depth timeout interval : Int),
      (store_action acts (some name) depth timeout interval).1 = 1 ↔
        (¬ (depth < 0 ∧ timeout < 0 ∧ interval < 0) ∧
          acts.any (action_matches name depth) = true)) := by
  refine ⟨by decide, by decide, ?_, ?_⟩
  · intro acts name depth timeout interval
    unfold store_action
    cases name with
    | none => simp
    | some n =>
      dsimp only
      split_ifs <;> cases acts <;> simp
  · intro acts name depth timeout interval
    unfold store_action
    dsimp only
    by_cases h : depth < 0 ∧ timeout < 0 ∧ interval < 0
    · simp [h]
    · rw [if_neg h]
      cases acts with
      | nil =>
        simp only [List.any_nil, Bool.false_eq_true, and_false, iff_false]
        split_ifs <;> simp
      | cons x xs =>
        dsimp only
        by_cases hany : (x :: xs).any (action_matches name depth) = true
        · rw [if_pos hany]; simp [h, hany]
        · rw [if_neg hany]
          simp only [hany, and_false, iff_false]
          split_ifs <;> simp

/-- C17: the registry that `store_rule` builds from the one rule "VM" rejects a
new rule "vm" as a duplicate (return value -1, list unchanged), yet
`find_rule_by_type` finds no rule for "vm" in it: storing compares names with
`strcasecmp`, lookup with `strcmp`. -/
theorem store_and_lookup_disagree_on_case :
    ∃ (rulelist : List resource_rule_t) (t : CStr),
      rulelist = (store_rule [] (bare_rule (cstr "VM"))).2 ∧ t = cstr "vm" ∧
      (store_rule [] (bare_rule (cstr "VM"))).1 = 0 ∧
      store_rule rulelist (bare_rule t) = (-1, rulelist) ∧
      find_rule_by_type rulelist t = none ∧
      find_rule_by_type rulelist (cstr "VM") = some (bare_rule (cstr "VM")) ∧
      strcasecmp t (cstr "VM") = 0 ∧ strcmp (cstr "VM") t ≠ 0 :=
  ⟨registry_VM, cstr "vm", rfl, rfl, by decide, by decide, by decide, by decide,
    by decide, by decide⟩

/-! ## Marker flags -/

theorem marker_true_iff (m : Option CStr) :
    marker_true m = true ↔ ∃ v, m = some v ∧ (atoi v ≠ 0 ∨ v.head? = some 121) := by
  cases m with
  | none => simp [marker_true]
  | some v => simp [marker_true, truthy]

theorem stored_attr_flags (p : xml_parameter) :
    ((stored_attr p).ra_flags &&& RA_REQUIRED ≠ 0 ↔ marker_true p.required = true) ∧
    ((stored_attr p).ra_flags &&& RA_UNIQUE ≠ 0 ↔ marker_true p.unique = true) ∧
    ((stored_attr p).ra_flags &&& RA_PRIMARY ≠ 0 ↔ marker_true p.primary = true) ∧
    ((stored_attr p).ra_flags &&& RA_INHERIT ≠ 0 ↔ p.inherit.isSome = true) := by
  simp only [stored_attr]
  cases marker_true p.required <;> cases marker_true p.unique <;>
    cases marker_true p.primary <;> cases p.inherit.isSome <;> decide

/-- C18, as amended: when `_get_rule_attrs` succeeds, every parameter block read
has its stored attribute and every attribute added comes from a parameter
block read, and on that attribute the required, the unique and the primary
flag are set if and only if the respective marker is present with a value
that `atoi` parses to a nonzero integer or that begins with `y`; the inherit
flag is set if and only if the `inherit` marker is present, whatever its
value. -/
theorem marker_flags_stored (ps : List xml_parameter) (rr : resource_rule_t)
    (hok : (_get_rule_attrs ps rr).1 = 0) :
    (∀ p ∈ scanned ps, ∃ a ∈ (_get_rule_attrs ps rr).2.rr_attrs,
      p.name = some a.ra_name ∧
      (a.ra_flags &&& RA_REQUIRED ≠ 0 ↔
        ∃ v, p.required = some v ∧ (atoi v ≠ 0 ∨ v.head? = some 121)) ∧
      (a.ra_flags &&& RA_UNIQUE ≠ 0 ↔
        ∃ v, p.unique = some v ∧ (atoi v ≠ 0 ∨ v.head? = some 121)) ∧
      (a.ra_flags &&& RA_PRIMARY ≠ 0 ↔
        ∃ v, p.primary = some v ∧ (atoi v ≠ 0 ∨ v.head? = some 121)) ∧
      (a.ra_flags &&& RA_INHERIT ≠ 0 ↔ ∃ e, p.inherit = some e)) ∧
    (∀ a ∈ (_get_rule_attrs ps rr).2.rr_attrs, a ∈ rr.rr_attrs ∨
      ∃ p ∈ scanned ps, p.name = some a.ra_name ∧
      (a.ra_flags &&& RA_REQUIRED ≠ 0 ↔
        ∃ v, p.required = some v ∧ (atoi v ≠ 0 ∨ v.head? = some 121)) ∧
      (a.ra_flags &&& RA_UNIQUE ≠ 0 ↔
        ∃ v, p.unique = some v ∧ (atoi v ≠ 0 ∨ v.head? = some 121)) ∧
      (a.ra_flags &&& RA_PRIMARY ≠ 0 ↔
        ∃ v, p.primary = some v ∧ (atoi v ≠ 0 ∨ v.head? = some 121)) ∧
      (a.ra_flags &&& RA_INHERIT ≠ 0 ↔ ∃ e, p.inherit = some e)) := by
  unfold _get_rule_attrs at hok ⊢
  obtain ⟨hperm, -⟩ := get_rule_attrs_loop_perm ps false rr.rr_attrs hok
  have hflags : ∀ p ∈ scanned ps, p.name = some (stored_attr p).ra_name ∧
      ((stored_attr p).ra_flags &&& RA_REQUIRED ≠ 0 ↔
        ∃ v, p.required = some v ∧ (atoi v ≠ 0 ∨ v.head? = some 121)) ∧
      ((stored_attr p).ra_flags &&& RA_UNIQUE ≠ 0 ↔
        ∃ v, p.unique = some v ∧ (atoi v ≠ 0 ∨ v.head? = some 121)) ∧
      ((stored_attr p).ra_flags &&& RA_PRIMARY ≠ 0 ↔
        ∃ v, p.primary = some v ∧ (atoi v ≠ 0 ∨ v.head? = some 121)) ∧
      ((stored_attr p).ra_flags &&& RA_INHERIT ≠ 0 ↔ ∃ e, p.inherit = some e) := by
    intro p hp
    obtain ⟨n, hn⟩ := scanned_named ps p hp
    obtain ⟨h1, h2, h3, h4⟩ := stored_attr_flags p
    refine ⟨by simp [stored_attr, hn], ?_, ?_, ?_, ?_⟩
    · rw [h1, marker_true_iff]
    · rw [h2, marker_true_iff]
    · rw [h3, marker_true_iff]
    · rw [h4, Option.isSome_iff_exists]
  constructor
  · intro p hp
    refine ⟨stored_attr p, ?_, hflags p hp⟩
    exact hperm.symm.subset (List.mem_append_right _ (List.mem_map_of_mem _ hp))
  · intro a ha
    rcases List.mem_append.mp (hperm.subset ha) with h | h
    · exact Or.inl h
    · obtain ⟨p, hp, rfl⟩ := List.mem_map.mp h
      exact Or.inr ⟨p, hp, hflags p hp⟩

theorem marker_flags_stored_witness :
    (_get_rule_attrs params_user_path_mode (bare_rule (cstr "fs"))).1 = 0 ∧
    ((∀ p ∈ scanned params_user_path_mode,
      ∃ a ∈ (_get_rule_attrs params_user_path_mode (bare_rule (cstr "fs"))).2.rr_attrs,
      p.name = some a.ra_name ∧
      (a.ra_flags &&& RA_REQUIRED ≠ 0 ↔
        ∃ v, p.required = some v ∧ (atoi v ≠ 0 ∨ v.head? = some 121)) ∧
      (a.ra_flags &&& RA_UNIQUE ≠ 0 ↔
        ∃ v, p.unique = some v ∧ (atoi v ≠ 0 ∨ v.head? = some 121)) ∧
      (a.ra_flags &&& RA_PRIMARY ≠ 0 ↔
        ∃ v, p.primary = some v ∧ (atoi v ≠ 0 ∨ v.head? = some 121)) ∧
      (a.ra_flags &&& RA_INHERIT ≠ 0 ↔ ∃ e, p.inherit = some e)) ∧
    (∀ a ∈ (_get_rule_attrs params_user_path_mode (bare_rule (cstr "fs"))).2.rr_attrs,
      a ∈ (bare_rule (cstr "fs")).rr_attrs ∨
      ∃ p ∈ scanned params_user_path_mode, p.name = some a.ra_name ∧
      (a.ra_flags &&& RA_REQUIRED ≠ 0 ↔
        ∃ v, p.required = some v ∧ (atoi v ≠ 0 ∨ v.head? = some 121)) ∧
      (a.ra_flags &&& RA_UNIQUE ≠ 0 ↔
        ∃ v, p.unique = some v ∧ (atoi v ≠ 0 ∨ v.head? = some 121)) ∧
      (a.ra_flags &&& RA_PRIMARY ≠ 0 ↔
        ∃ v, p.primary = some v ∧ (atoi v ≠ 0 ∨ v.head? = some 121)) ∧
      (a.ra_flags &&& RA_INHERIT ≠ 0 ↔ ∃ e, p.inherit = some e))) :=
  ⟨by decide,
   marker_flags_stored params_user_path_mode (bare_rule (cstr "fs")) (by decide)⟩

/-- C18 fails as stated: the parameter "user" declares `inherit="0"`, a value
that is not truthy (`atoi` gives 0 and it does not begin with `y`), and yet
the attribute stored for it carries the inherit flag, with "0" as value. -/
theorem inherit_zero_sets_flag :
    param_inherit_zero.inherit = some (cstr "0") ∧
    atoi (cstr "0") = 0 ∧ (cstr "0").head? ≠ some 121 ∧ truthy (cstr "0") = false ∧
    _get_rule_attrs [param_inherit_zero] (bare_rule (cstr "fs")) =
      (0, { bare_rule (cstr "fs") with
            rr_attrs := [⟨cstr "user", some (cstr "0"), RA_INHERIT⟩] }) ∧
    RA_INHERIT &&& RA_INHERIT ≠ 0 := by
  decide

/-! ## Invariants of the action and attribute arrays -/

theorem store_action_name_depth (acts : List resource_act_t) (name : CStr)
    (depth timeout interval : Int)
    (h : acts.any (action_matches name depth) = true) :
    (store_action acts (some name) depth timeout interval).2.map
        (fun a => (a.ra_name, a.ra_depth))
      = acts.map (fun a => (a.ra_name, a.ra_depth)) := by
  unfold store_action
  dsimp only
  by_cases hearly : depth < 0 ∧ timeout < 0 ∧ interval < 0
  · rw [if_pos hearly]
  · rw [if_neg hearly]
    cases acts with
    | nil => simp at h
    | cons x xs =>
      simp only [h, if_true, List.map_map]
      apply List.map_congr_left
      intro a _
      have := action_replace_name_depth name depth timeout interval a
      simp [this.1, this.2]

theorem store_action_no_duplicate (acts : List resource_act_t) (name : Option CStr)
    (depth timeout interval : Int)
    (h : acts.Pairwise (fun a b =>
      ¬ (strcmp a.ra_name b.ra_name = 0 ∧ a.ra_depth = b.ra_depth))) :
    (store_action acts name depth timeout interval).2.Pairwise (fun a b =>
      ¬ (strcmp a.ra_name b.ra_name = 0 ∧ a.ra_depth = b.ra_depth)) := by
  unfold store_action
  cases name with
  | none => exact h
  | some n =>
    dsimp only
    by_cases hearly : depth < 0 ∧ timeout < 0 ∧ interval < 0
    · rw [if_pos hearly]; exact h
    · rw [if_neg hearly]
      cases acts with
      | nil => dsimp only; split_ifs <;> simp
      | cons x xs =>
        dsimp only
        by_cases hany : (x :: xs).any (action_matches n depth) = true
        · rw [if_pos hany]
          rw [List.pairwise_map]
          refine h.imp ?_
          intro a b hab
          rw [(action_replace_name_depth n depth timeout interval a).1,
            (action_replace_name_depth n depth timeout interval a).2,
            (action_replace_name_depth n depth timeout interval b).1,
            (action_replace_name_depth n depth timeout interval b).2]
          exact hab
        · rw [if_neg hany]
          split_ifs
          · exact h
          · rw [List.pairwise_append]
            refine ⟨h, List.pairwise_singleton _ _, ?_⟩
            intro a ha b hb
            rw [List.mem_singleton] at hb
            subst hb
            rintro ⟨h1, h2⟩
            apply hany
            rw [List.any_eq_true]
            refine ⟨a, ha, ?_⟩
            simp [action_matches, h1, h2]

theorem store_actions_no_duplicate (calls : List (Option CStr × Int × Int × Int))
    (acts : List resource_act_t)
    (h : acts.Pairwise (fun a b =>
      ¬ (strcmp a.ra_name b.ra_name = 0 ∧ a.ra_depth = b.ra_depth))) :
    (store_actions acts calls).Pairwise (fun a b =>
      ¬ (strcmp a.ra_name b.ra_name = 0 ∧ a.ra_depth = b.ra_depth)) := by
  induction calls generalizing acts with
  | nil => exact h
  | cons c cs ih =>
    unfold store_actions
    exact ih _ (store_action_no_duplicate acts c.1 c.2.1 c.2.2.1 c.2.2.2 h)

theorem strcmp_swap (a b : CStr) : strcmp b a = - strcmp a b := by
  induction a generalizing b with
  | nil => cases b <;> simp [strcmp]
  | cons x xs ih =>
    cases b with
    | nil => simp [strcmp]
    | cons y ys =>
      by_cases h : x = y
      · simp [strcmp, h, ih ys]
      · have h2 : ¬ y = x := fun e => h e.symm
        simp [strcmp, h, h2]

theorem store_action_nonneg (acts : List resource_act_t) (name : Option CStr)
    (depth timeout interval : Int)
    (h : ∀ a ∈ acts, 0 ≤ a.ra_depth ∧ 0 ≤ a.ra_timeout ∧ 0 ≤ a.ra_interval) :
    ∀ a ∈ (store_action acts name depth timeout interval).2,
      0 ≤ a.ra_depth ∧ 0 ≤ a.ra_timeout ∧ 0 ≤ a.ra_interval := by
  unfold store_action
  cases name with
  | none => exact h
  | some n =>
    dsimp only
    by_cases hearly : depth < 0 ∧ timeout < 0 ∧ interval < 0
    · rw [if_pos hearly]; exact h
    · rw [if_neg hearly]
      cases acts with
      | nil =>
        dsimp only
        by_cases hneg : depth < 0 ∨ timeout < 0 ∨ interval < 0
        · rw [if_pos hneg]; exact h
        · rw [if_neg hneg]
          intro a ha
          rw [List.mem_singleton] at ha
          subst ha
          dsimp only
          omega
      | cons x xs =>
        dsimp only
        by_cases hany : (x :: xs).any (action_matches n depth) = true
        · rw [if_pos hany]
          intro a ha
          obtain ⟨b, hb, rfl⟩ := List.mem_map.mp ha
          obtain ⟨b1, b2, b3⟩ := h b hb
          unfold action_replace
          split
          · dsimp only
            refine ⟨b1, ?_, ?_⟩
            · split <;> omega
            · split <;> omega
          · exact ⟨b1, b2, b3⟩
        · rw [if_neg hany]
          by_cases hneg : depth < 0 ∨ timeout < 0 ∨ interval < 0
          · rw [if_pos hneg]; exact h
          · rw [if_neg hneg]
            intro a ha
            rcases List.mem_append.mp ha with ha | ha
            · exact h a ha
            · rw [List.mem_singleton] at ha
              subst ha
              dsimp only
              omega

theorem store_actions_nonneg (calls : List (Option CStr × Int × Int × Int))
    (acts : List resource_act_t)
    (h : ∀ a ∈ acts, 0 ≤ a.ra_depth ∧ 0 ≤ a.ra_timeout ∧ 0 ≤ a.ra_interval) :
    ∀ a ∈ store_actions acts calls,
      0 ≤ a.ra_depth ∧ 0 ≤ a.ra_timeout ∧ 0 ≤ a.ra_interval := by
  induction calls generalizing acts with
  | nil => exact h
  | cons c cs ih =>
    unfold store_actions
    exact ih _ (store_action_nonneg acts c.1 c.2.1 c.2.2.1 c.2.2.2 h)

theorem store_action_updates_slot (acts : List resource_act_t)
    (hnd : acts.Pairwise (fun a b =>
      ¬ (strcmp a.ra_name b.ra_name = 0 ∧ a.ra_depth = b.ra_depth)))
    (i : Nat) (e : resource_act_t) (hi : acts[i]? = some e) (hd : 0 ≤ e.ra_depth)
    (timeout interval : Int) :
    (store_action acts (some e.ra_name) e.ra_depth timeout interval).2[i]?
      = some ⟨e.ra_name, e.ra_depth,
          if 0 ≤ timeout then timeout else e.ra_timeout,
          if 0 ≤ interval then interval else e.ra_interval⟩ ∧
    ∀ (j : Nat) (a : resource_act_t), j ≠ i → acts[j]? = some a →
      (store_action acts (some e.ra_name) e.ra_depth timeout interval).2[j]? = some a := by
  have hmatch : action_matches e.ra_name e.ra_depth e = true := by
    simp [action_matches, strcmp_self]
  have hany : acts.any (action_matches e.ra_name e.ra_depth) = true :=
    List.any_eq_true.mpr ⟨e, List.getElem?_mem hi, hmatch⟩
  have hearly : ¬ (e.ra_depth < 0 ∧ timeout < 0 ∧ interval < 0) := by omega
  have hres : (store_action acts (some e.ra_name) e.ra_depth timeout interval).2
      = acts.map (action_replace e.ra_name e.ra_depth timeout interval) := by
    unfold store_action
    dsimp only
    rw [if_neg hearly]
    cases acts with
    | nil => simp at hi
    | cons x xs => simp only [hany, if_true]
  rw [hres]
  constructor
  · rw [List.getElem?_map, hi]
    simp [action_replace, hmatch]
  · intro j a hji hj
    rw [List.getElem?_map, hj]
    have hno : action_matches e.ra_name e.ra_depth a = false := by
      obtain ⟨hjl, hja⟩ := List.getElem?_eq_some.mp hj
      obtain ⟨hil, hie⟩ := List.getElem?_eq_some.mp hi
      have hpw := List.pairwise_iff_getElem.mp hnd
      have hne1 : e.ra_depth ≠ -1 := by omega
      by_contra hc
      simp only [action_matches, Bool.not_eq_false, Bool.and_eq_true, Bool.or_eq_true,
        decide_eq_true_eq] at hc
      obtain ⟨hs, hdep | hdep⟩ := hc
      · rcases Nat.lt_or_gt_of_ne hji with hlt | hgt
        · have := hpw j i hjl hil hlt
          rw [hja, hie] at this
          exact this ⟨hs, hdep.symm⟩
        · have := hpw i j hil hjl hgt
          rw [hja, hie] at this
          refine this ⟨?_, hdep⟩
          rw [strcmp_swap, hs]; rfl
      · exact hne1 hdep
    simp [action_replace, hno]

/-- C19: after any sequence of `store_action` calls on an array that starts
empty (any names, depths, timeouts and intervals, failing calls included) no
two entries of the array have the same name and the same depth, whether names
are compared with `strcmp` or byte for byte, and no entry has a negative
depth, timeout or interval.  A further call whose name and depth are those of
an existing entry appends nothing: the length, and the name and depth of every
entry, stay as they are.  Such a call updates that entry and no other: the
entry takes the timeout of the call when that is not negative and keeps its
own otherwise, likewise for the interval, and every other entry is left as it
is. -/
theorem action_array_no_duplicate_slot (calls : List (Option CStr × Int × Int × Int)) :
    (store_actions [] calls).Pairwise (fun a b =>
      ¬ (strcmp a.ra_name b.ra_name = 0 ∧ a.ra_depth = b.ra_depth)) ∧
    (store_actions [] calls).Pairwise (fun a b =>
      ¬ (a.ra_name = b.ra_name ∧ a.ra_depth = b.ra_depth)) ∧
    (∀ (name : CStr) (depth timeout interval : Int),
      (∃ e ∈ store_actions [] calls, e.ra_name = name ∧ e.ra_depth = depth) →
      (store_action (store_actions [] calls) (some name) depth timeout interval).2.length
        = (store_actions [] calls).length ∧
      (store_action (store_actions [] calls) (some name) depth timeout interval).2.map
          (fun a => (a.ra_name, a.ra_depth))
        = (store_actions [] calls).map (fun a => (a.ra_name, a.ra_depth))) ∧
    (∀ e ∈ store_actions [] calls,
      0 ≤ e.ra_depth ∧ 0 ≤ e.ra_timeout ∧ 0 ≤ e.ra_interval) ∧
    (∀ (i : Nat) (e : resource_act_t) (timeout interval : Int),
      (store_actions [] calls)[i]? = some e →
      (store_action (store_actions [] calls) (some e.ra_name) e.ra_depth
          timeout interval).2[i]?
        = some ⟨e.ra_name, e.ra_depth,
            if 0 ≤ timeout then timeout else e.ra_timeout,
            if 0 ≤ interval then interval else e.ra_interval⟩ ∧
      ∀ (j : Nat) (a : resource_act_t), j ≠ i →
        (store_actions [] calls)[j]? = some a →
        (store_action (store_actions [] calls) (some e.ra_name) e.ra_depth
          timeout interval).2[j]? = some a) := by
  have h1 := store_actions_no_duplicate calls [] List.Pairwise.nil
  have h0 := store_actions_nonneg calls [] (by simp)
  refine ⟨h1, ?_, ?_, h0, ?_⟩
  · refine h1.imp ?_
    intro a b hab hab2
    exact hab ⟨by rw [hab2.1]; exact strcmp_self _, hab2.2⟩
  · rintro name depth timeout interval ⟨e, he, hn, hd⟩
    have hany : (store_actions [] calls).any (action_matches name depth) = true := by
      rw [List.any_eq_true]
      refine ⟨e, he, ?_⟩
      simp [action_matches, hn, hd, strcmp_self]
    have hmap := store_action_name_depth (store_actions [] calls) name depth timeout
      interval hany
    refine ⟨?_, hmap⟩
    have := congrArg List.length hmap
    simpa using this
  · intro i e timeout interval hi
    exact store_action_updates_slot (store_actions [] calls) h1 i e hi
      (h0 e (List.getElem?_mem hi)).1 timeout interval

theorem store_attribute_primary_inv (attrs : List resource_attr_t) (n : CStr)
    (v : Option CStr) (f : Nat) (primary_found : Bool)
    (htail : ∀ a ∈ attrs.tail, a.ra_flags &&& RA_PRIMARY = 0)
    (hall : primary_found = false → ∀ a ∈ attrs, a.ra_flags &&& RA_PRIMARY = 0)
    (hnot : ¬ (f &&& RA_PRIMARY ≠ 0 ∧ primary_found = true)) :
    (∀ a ∈ (store_attribute attrs (some n) v f).2.tail, a.ra_flags &&& RA_PRIMARY = 0) ∧
    ((primary_found || decide (f &&& RA_PRIMARY ≠ 0)) = false →
      ∀ a ∈ (store_attribute attrs (some n) v f).2, a.ra_flags &&& RA_PRIMARY = 0) := by
  unfold store_attribute
  by_cases hf : f &&& RA_PRIMARY ≠ 0
  · have hpf : primary_found = false := by
      cases primary_found with
      | false => rfl
      | true => exact absurd ⟨hf, rfl⟩ hnot
    cases attrs with
    | nil => simp [hf]
    | cons first rest =>
      dsimp only
      rw [if_pos hf]
      refine ⟨?_, by simp [hf]⟩
      intro a ha
      simp only [List.cons_append, List.tail_cons, List.mem_append,
        List.mem_singleton] at ha
      rcases ha with ha | rfl
      · exact hall hpf a (List.mem_cons_of_mem _ ha)
      · exact hall hpf a (List.mem_cons_self _ _)
  · have hf0 : f &&& RA_PRIMARY = 0 := by simpa using hf
    cases attrs with
    | nil =>
      dsimp only
      refine ⟨by simp, ?_⟩
      intro _ a ha
      rw [List.mem_singleton] at ha
      subst ha
      exact hf0
    | cons first rest =>
      dsimp only
      rw [if_neg hf]
      refine ⟨?_, ?_⟩
      · intro a ha
        simp only [List.cons_append, List.tail_cons, List.mem_append,
          List.mem_singleton] at ha
        rcases ha with ha | rfl
        · exact htail a (by simpa using ha)
        · exact hf0
      · intro hpf a ha
        have hpf2 : primary_found = false := by
          cases primary_found with
          | false => rfl
          | true => simp at hpf
        rw [List.cons_append, List.mem_cons, List.mem_append, List.mem_singleton] at ha
        rcases ha with rfl | ha | rfl
        · exact hall hpf2 a (List.mem_cons_self _ _)
        · exact hall hpf2 a (List.mem_cons_of_mem _ ha)
        · exact hf0

theorem get_rule_attrs_loop_primary_tail (ps : List xml_parameter)
    (primary_found : Bool) (attrs : List resource_attr_t)
    (htail : ∀ a ∈ attrs.tail, a.ra_flags &&& RA_PRIMARY = 0)
    (hall : primary_found = false → ∀ a ∈ attrs, a.ra_flags &&& RA_PRIMARY = 0)
    (hok : (_get_rule_attrs_loop ps primary_found attrs).1 = 0) :
    ∀ a ∈ (_get_rule_attrs_loop ps primary_found attrs).2.tail,
      a.ra_flags &&& RA_PRIMARY = 0 := by
  induction ps generalizing primary_found attrs with
  | nil => simpa [_get_rule_attrs_loop] using htail
  | cons p rest ih =>
    cases hn : p.name with
    | none => simpa [_get_rule_attrs_loop, hn] using htail
    | some n =>
      rw [get_rule_attrs_loop_cons p rest primary_found attrs n hn] at hok ⊢
      by_cases h1 : (marker_true p.primary && primary_found) = true
      · rw [if_pos h1] at hok; simp at hok
      · rw [if_neg h1] at hok ⊢
        by_cases h2 : inherit_conflict p = true
        · rw [if_pos h2] at hok; simp at hok
        · rw [if_neg h2] at hok ⊢
          have hfl := (stored_attr_flags p).2.2.1
          have hnot : ¬ ((stored_attr p).ra_flags &&& RA_PRIMARY ≠ 0 ∧
              primary_found = true) := by
            rintro ⟨ha, hb⟩
            exact h1 (by rw [hfl.mp ha, hb]; rfl)
          obtain ⟨i1, i2⟩ := store_attribute_primary_inv attrs n
            (stored_attr p).ra_value (stored_attr p).ra_flags primary_found
            htail hall hnot
          have hdec : decide ((stored_attr p).ra_flags &&& RA_PRIMARY ≠ 0)
              = marker_true p.primary := by
            cases hm : marker_true p.primary with
            | true => exact decide_eq_true (hfl.mpr hm)
            | false =>
              refine decide_eq_false ?_
              intro hc
              rw [hfl.mp hc] at hm
              exact Bool.noConfusion hm
          rw [hdec] at i2
          exact ih _ _ i1 i2 hok

/-- C20: when `_get_rule_attrs` succeeds on a rule that has no attribute yet, at
most one attribute of the resulting array carries the primary flag, an
attribute carrying it is at index 0, and a parameter block read whose primary
marker is true has its attribute at index 0, wherever it stood in the
document. -/
theorem primary_attribute_first (ps : List xml_parameter) (rr : resource_rule_t)
    (hempty : rr.rr_attrs = []) (hok : (_get_rule_attrs ps rr).1 = 0) :
    ((_get_rule_attrs ps rr).2.rr_attrs.filter
      (fun a => a.ra_flags &&& RA_PRIMARY ≠ 0)).length ≤ 1 ∧
    (∀ (i : Nat) (a : resource_attr_t),
      (_get_rule_attrs ps rr).2.rr_attrs[i]? = some a →
      a.ra_flags &&& RA_PRIMARY ≠ 0 → i = 0) ∧
    (∀ p ∈ scanned ps,
      (∃ v, p.primary = some v ∧ (atoi v ≠ 0 ∨ v.head? = some 121)) →
      ∃ a, (_get_rule_attrs ps rr).2.rr_attrs[0]? = some a ∧
        p.name = some a.ra_name ∧ a.ra_flags &&& RA_PRIMARY ≠ 0) := by
  unfold _get_rule_attrs at hok ⊢
  dsimp only at hok ⊢
  rw [hempty] at hok ⊢
  have htail := get_rule_attrs_loop_primary_tail ps false [] (by simp) (by simp) hok
  obtain ⟨hperm, -⟩ := get_rule_attrs_loop_perm ps false [] hok
  have hidx : ∀ (i : Nat) (a : resource_attr_t),
      (_get_rule_attrs_loop ps false []).2[i]? = some a →
      a.ra_flags &&& RA_PRIMARY ≠ 0 → i = 0 := by
    intro i a hi hp
    cases hl : (_get_rule_attrs_loop ps false []).2 with
    | nil => rw [hl] at hi; simp at hi
    | cons x xs =>
      rw [hl] at hi htail
      cases i with
      | zero => rfl
      | succ j =>
        simp only [List.getElem?_cons_succ, List.tail_cons] at hi htail
        exact absurd (htail a (List.getElem?_mem hi)) hp
  refine ⟨?_, hidx, ?_⟩
  · cases hl : (_get_rule_attrs_loop ps false []).2 with
    | nil => simp
    | cons x xs =>
      rw [hl] at htail
      have hxs : xs.filter (fun a => a.ra_flags &&& RA_PRIMARY ≠ 0) = [] := by
        rw [List.filter_eq_nil_iff]
        intro a ha
        simpa using htail a (by simpa using ha)
      rw [List.filter_cons]
      split
      · rw [hxs]; exact Nat.le_refl 1
      · rw [hxs]; exact Nat.zero_le 1
  · intro p hp hprim
    have hmem : stored_attr p ∈ (_get_rule_attrs_loop ps false []).2 :=
      hperm.symm.subset (by simpa using List.mem_map_of_mem stored_attr hp)
    have hflag : (stored_attr p).ra_flags &&& RA_PRIMARY ≠ 0 :=
      (stored_attr_flags p).2.2.1.mpr ((marker_true_iff p.primary).mpr hprim)
    obtain ⟨i, hi⟩ := List.getElem?_of_mem hmem
    have h0 := hidx i (stored_attr p) hi hflag
    subst h0
    obtain ⟨n, hn⟩ := scanned_named ps p hp
    exact ⟨stored_attr p, hi, by simp [stored_attr, hn], hflag⟩

theorem primary_attribute_first_witness :
    (bare_rule (cstr "fs")).rr_attrs = [] ∧
    (_get_rule_attrs params_mode_name_path (bare_rule (cstr "fs"))).1 = 0 ∧
    (((_get_rule_attrs params_mode_name_path (bare_rule (cstr "fs"))).2.rr_attrs.filter
      (fun a => a.ra_flags &&& RA_PRIMARY ≠ 0)).length ≤ 1 ∧
    (∀ (i : Nat) (a : resource_attr_t),
      (_get_rule_attrs params_mode_name_path (bare_rule (cstr "fs"))).2.rr_attrs[i]?
        = some a →
      a.ra_flags &&& RA_PRIMARY ≠ 0 → i = 0) ∧
    (∀ p ∈ scanned params_mode_name_path,
      (∃ v, p.primary = some v ∧ (atoi v ≠ 0 ∨ v.head? = some 121)) →
      ∃ a, (_get_rule_attrs params_mode_name_path (bare_rule (cstr "fs"))).2.rr_attrs[0]?
          = some a ∧
        p.name = some a.ra_name ∧ a.ra_flags &&& RA_PRIMARY ≠ 0)) :=
  ⟨by decide, by decide,
   primary_attribute_first params_mode_name_path (bare_rule (cstr "fs"))
     (by decide) (by decide)⟩

/-! ## Depth -1, and the position of a new attribute -/

theorem action_matches_all_depths (name : CStr) (a : resource_act_t) :
    action_matches name (-1) a = decide (strcmp a.ra_name name = 0) := by
  simp [action_matches]

theorem action_replace_all_depths (name : CStr) (timeout interval : Int)
    (a : resource_act_t) :
    action_replace name (-1) timeout interval a
      = apply_all_depths name timeout interval a := by
  unfold action_replace apply_all_depths
  rw [action_matches_all_depths]
  by_cases h : strcmp a.ra_name name = 0
  · simp [h]
  · simp [h]

theorem apply_all_depths_noop (name : CStr) (timeout interval : Int)
    (a : resource_act_t)
    (h : (timeout < 0 ∧ interval < 0) ∨ strcmp a.ra_name name ≠ 0) :
    apply_all_depths name timeout interval a = a := by
  unfold apply_all_depths
  rcases h with ⟨h1, h2⟩ | h
  · have e1 : ¬ timeout ≥ 0 := by omega
    have e2 : ¬ interval ≥ 0 := by omega
    split
    · simp [e1, e2]
    · rfl
  · rw [if_neg h]

/-- C21, as amended: storing an action with name `N` and depth -1 merges
nothing.  The array afterwards is the array before with every entry named `N`
given the timeout and the interval of the call where these are not negative;
it has the same length, every entry keeps its name and depth, and it holds as
many entries named `N` as before. -/
theorem store_action_all_depths_keeps_entries (acts : List resource_act_t)
    (name : CStr) (timeout interval : Int) :
    (store_action acts (some name) (-1) timeout interval).2
      = acts.map (apply_all_depths name timeout interval) ∧
    (store_action acts (some name) (-1) timeout interval).2.length = acts.length ∧
    (store_action acts (some name) (-1) timeout interval).2.map
        (fun a => (a.ra_name, a.ra_depth))
      = acts.map (fun a => (a.ra_name, a.ra_depth)) ∧
    ((store_action acts (some name) (-1) timeout interval).2.filter
        (fun a => a.ra_name = name)).length
      = (acts.filter (fun a => a.ra_name = name)).length := by
  have hmain : (store_action acts (some name) (-1) timeout interval).2
      = acts.map (apply_all_depths name timeout interval) := by
    unfold store_action
    dsimp only
    by_cases hearly : (-1 : Int) < 0 ∧ timeout < 0 ∧ interval < 0
    · rw [if_pos hearly]
      dsimp only
      symm
      conv_rhs => rw [← List.map_id acts]
      apply List.map_congr_left
      intro a _
      exact apply_all_depths_noop name timeout interval a (Or.inl hearly.2)
    · rw [if_neg hearly]
      cases acts with
      | nil => simp
      | cons x xs =>
        dsimp only
        by_cases hany : (x :: xs).any (action_matches name (-1)) = true
        · rw [if_pos hany]
          dsimp only
          apply List.map_congr_left
          intro a _
          exact action_replace_all_depths name timeout interval a
        · rw [if_neg hany, if_pos (Or.inl (by decide))]
          dsimp only
          symm
          conv_rhs => rw [← List.map_id (x :: xs)]
          apply List.map_congr_left
          intro a ha
          refine apply_all_depths_noop name timeout interval a (Or.inr ?_)
          intro h0
          apply hany
          rw [List.any_eq_true]
          exact ⟨a, ha, by rw [action_matches_all_depths]; simpa using h0⟩
  have hnd : ∀ a : resource_act_t,
      (apply_all_depths name timeout interval a).ra_name = a.ra_name ∧
      (apply_all_depths name timeout interval a).ra_depth = a.ra_depth := by
    intro a
    unfold apply_all_depths
    split <;> exact ⟨rfl, rfl⟩
  refine ⟨hmain, ?_, ?_, ?_⟩
  · rw [hmain, List.length_map]
  · rw [hmain, List.map_map]
    apply List.map_congr_left
    intro a _
    simp [(hnd a).1, (hnd a).2]
  · rw [hmain, List.filter_map, List.length_map]
    congr 1
    apply List.filter_congr
    intro a _
    simp [(hnd a).1]

/-- C21 fails as stated: the array `acts_start_monitor` holds "monitor" at depth
10 and at depth 20; storing "monitor" with depth -1, timeout 5 and interval 7
returns 1 and leaves both entries in the array, each with the new timeout and
interval, so two entries named "monitor" remain, not one. -/
theorem depth_all_keeps_both_monitors :
    (acts_start_monitor.filter (fun a => a.ra_name = cstr "monitor")).length = 2 ∧
    store_action acts_start_monitor (some (cstr "monitor")) (-1) 5 7 =
      (1, [⟨cstr "start", 0, 30, 0⟩, ⟨cstr "monitor", 10, 5, 7⟩,
           ⟨cstr "monitor", 20, 5, 7⟩]) ∧
    ((store_action acts_start_monitor (some (cstr "monitor")) (-1) 5 7).2.filter
      (fun a => a.ra_name = cstr "monitor")).length = 2 ∧
    ((store_action acts_start_monitor (some (cstr "monitor")) (-1) 5 7).2.filter
      (fun a => a.ra_name = cstr "monitor")).length ≠ 1 := by
  decide

/-- C22: on an array of `n ≥ 1` attributes and with a name, `store_attribute`
returns 0 and gives an array of `n + 1` attributes.  Without the primary flag
the new attribute is at index `n` and indices `0..n-1` are as before; with the
primary flag the new attribute is at index 0, the former first attribute is
at index `n`, and indices `1..n-1` are as before.  Either way the result is a
permutation of the old attributes plus the new one: nothing is merged or
lost. -/
theorem store_attribute_positions (attrs : List resource_attr_t)
    (hn : 1 ≤ attrs.length) (name : CStr) (value : Option CStr) (flags : Nat) :
    (store_attribute attrs (some name) value flags).1 = 0 ∧
    (store_attribute attrs (some name) value flags).2.length = attrs.length + 1 ∧
    (store_attribute attrs (some name) value flags).2.Perm
      (attrs ++ [⟨name, value, flags⟩]) ∧
    (flags &&& RA_PRIMARY = 0 →
      (∀ i : Nat, i < attrs.length →
        (store_attribute attrs (some name) value flags).2[i]? = attrs[i]?) ∧
      (store_attribute attrs (some name) value flags).2[attrs.length]?
        = some ⟨name, value, flags⟩) ∧
    (flags &&& RA_PRIMARY ≠ 0 →
      (store_attribute attrs (some name) value flags).2[0]?
        = some ⟨name, value, flags⟩ ∧
      (store_attribute attrs (some name) value flags).2[attrs.length]? = attrs[0]? ∧
      (∀ i : Nat, 1 ≤ i → i < attrs.length →
        (store_attribute attrs (some name) value flags).2[i]? = attrs[i]?)) := by
  have hperm := store_attribute_perm attrs name value flags
  cases attrs with
  | nil => simp at hn
  | cons first rest =>
    refine ⟨?_, ?_, hperm, ?_, ?_⟩
    · unfold store_attribute
      dsimp only
      split <;> rfl
    · have := hperm.length_eq
      simpa using this
    · intro hf
      have hres : (store_attribute (first :: rest) (some name) value flags).2
          = (first :: rest) ++ [⟨name, value, flags⟩] := by
        unfold store_attribute
        dsimp only
        rw [if_neg (by simpa using hf)]
      rw [hres]
      constructor
      · intro i hi
        exact List.getElem?_append_left hi
      · simp
    · intro hf
      have hres : (store_attribute (first :: rest) (some name) value flags).2
          = ⟨name, value, flags⟩ :: (rest ++ [first]) := by
        unfold store_attribute
        dsimp only
        rw [if_pos hf]
        rfl
      rw [hres]
      refine ⟨by simp, ?_, ?_⟩
      · simp
      · intro i h1 hi
        obtain ⟨j, rfl⟩ : ∃ j, i = j + 1 := ⟨i - 1, by omega⟩
        simp only [List.length_cons] at hi
        simp only [List.getElem?_cons_succ]
        exact List.getElem?_append_left (by omega)

theorem store_attribute_positions_witness :
    1 ≤ attrs_mode_path_user.length ∧
    ((store_attribute attrs_mode_path_user (some (cstr "name")) none RA_PRIMARY).1 = 0 ∧
    (store_attribute attrs_mode_path_user (some (cstr "name")) none RA_PRIMARY).2.length
      = attrs_mode_path_user.length + 1 ∧
    (store_attribute attrs_mode_path_user (some (cstr "name")) none RA_PRIMARY).2.Perm
      (attrs_mode_path_user ++ [⟨cstr "name", none, RA_PRIMARY⟩]) ∧
    (RA_PRIMARY &&& RA_PRIMARY = 0 →
      (∀ i : Nat, i < attrs_mode_path_user.length →
        (store_attribute attrs_mode_path_user (some (cstr "name")) none RA_PRIMARY).2[i]?
          = attrs_mode_path_user[i]?) ∧
      (store_attribute attrs_mode_path_user (some (cstr "name")) none
          RA_PRIMARY).2[attrs_mode_path_user.length]?
        = some ⟨cstr "name", none, RA_PRIMARY⟩) ∧
    (RA_PRIMARY &&& RA_PRIMARY ≠ 0 →
      (store_attribute attrs_mode_path_user (some (cstr "name")) none RA_PRIMARY).2[0]?
        = some ⟨cstr "name", none, RA_PRIMARY⟩ ∧
      (store_attribute attrs_mode_path_user (some (cstr "name")) none
          RA_PRIMARY).2[attrs_mode_path_user.length]?
        = attrs_mode_path_user[0]? ∧
      (∀ i : Nat, 1 ≤ i → i < attrs_mode_path_user.length →
        (store_attribute attrs_mode_path_user (some (cstr "name")) none RA_PRIMARY).2[i]?
          = attrs_mode_path_user[i]?))) :=
  ⟨by decide,
   store_attribute_positions attrs_mode_path_user (by decide) (cstr "name") none
     RA_PRIMARY⟩

end ResRules
